import Mathlib

/-!
# External-string cache and frame-loading delegate

A shallow embedding of `WebCore::StringCache`
(`Source/bindings/v8/V8ValueCache.cpp`): the map from native string buffers to
weak handles on scripting-engine strings, its last-access slot, the creation
path and the finalizer callback; and of the methods of
`WebKit::FrameLoaderClientImpl` (`Source/web/FrameLoaderClientImpl.cpp`) that
the claims are about.  The definitions come first, the theorems follow.

For the cache, the native heap, the engine heap and the cache are one explicit
state (`World`); every member function is a state transformer.  The engine's
choice between success and failure of `v8::String::NewExternal` is an explicit
Boolean argument.  A failed `ASSERT` aborts: the function returns `none`.

For the delegate, a pointer is an `Option` and a method returns `none` when it
dereferences a null pointer.
-/

namespace WebCore

/-! ## Native strings -/

/-- Address of a native string buffer: the value of a `StringImpl*`. -/
abbrev StringImplPtr := Nat

/-- Modelled from the spec: `StringImpl` is declared in `wtf/text/StringImpl.h`,
outside the given sources.  The spec describes it as an immutable buffer with a
length, an 8-bit-or-16-bit encoding tag, its code units, and a manual reference
count changed by `ref` and `deref`. -/
structure StringImpl where
  characters : List Nat
  is8Bit : Bool
  refCount : Nat
  deriving DecidableEq, Repr

/-- Number of code units, `StringImpl::length()`. -/
def StringImpl.length (s : StringImpl) : Nat := s.characters.length

/-! ## The scripting engine -/

/-- Identity of an object on the scripting engine's heap. -/
abbrev ObjectId := Nat

/-- Address of the storage cell behind a `v8::Persistent`. -/
abbrev HandleCell := Nat

/-- A `v8::Local<v8::String>`: empty (`none`) or a reference to an object. -/
abbrev Local := Option ObjectId

/-- Modelled from the spec: `WebCoreStringResource8` and `WebCoreStringResource16`
are declared in `bindings/v8/V8Binding.h`, outside the given sources.  The spec has
the external string wrap (share storage with, not copy) the native buffer, in the
representation matching its encoding width; the resource therefore records which
buffer it exposes and in which width. -/
inductive WebCoreStringResource where
  | resource8 (plainString : StringImplPtr)
  | resource16 (plainString : StringImplPtr)
  deriving DecidableEq, Repr

/-- Storage cell of a persistent handle: the object it refers to, the
`MarkIndependent` hint, and the parameter given to `MakeWeak` (`none` while the
handle is strong).  The only callback registered in this file is
`StringCache::makeWeakCallback`, so the parameter is all a weak cell records. -/
structure GlobalHandle where
  object : ObjectId
  independent : Bool
  weakParameter : Option StringImplPtr
  deriving DecidableEq, Repr

/-- The engine instance: the next fresh object identity, the external strings it
has constructed with the resource each one owns, and the table of persistent
handle cells (`none` once a cell is disposed). -/
structure Isolate where
  nextObject : ObjectId
  externalStrings : List (ObjectId × WebCoreStringResource)
  globalHandles : List (Option GlobalHandle)
  deriving DecidableEq, Repr

/-- Contents of a handle cell, `none` when the cell was never allocated or is
disposed. -/
def Isolate.handle (isolate : Isolate) (cell : HandleCell) : Option GlobalHandle :=
  isolate.globalHandles.getD cell none

/-- The buffer a string resource exposes. -/
def WebCoreStringResource.plainString : WebCoreStringResource → StringImplPtr
  | .resource8 s => s
  | .resource16 s => s

/-- Number of external strings the engine has constructed over a given buffer:
the number of completed runs of the creation path for that buffer. -/
def Isolate.externalStringsFor (isolate : Isolate) (s : StringImplPtr) : Nat :=
  (isolate.externalStrings.filter (fun e => decide (e.2.plainString = s))).length

/-- Identity of the engine's canonical empty string. -/
def emptyStringObject : ObjectId := 0

/-- The call `v8::String::Empty(isolate)`: a handle on the canonical empty string. -/
def Empty (_isolate : Isolate) : Local := some emptyStringObject

/-- The call `v8::String::NewExternal(resource)`.  On success the engine
allocates a fresh string object owning the resource; on failure it returns an
empty handle and allocates nothing. -/
def NewExternal (isolate : Isolate) (resource : WebCoreStringResource) (succeeds : Bool) :
    Isolate × Local :=
  if succeeds then
    ({ isolate with
        nextObject := isolate.nextObject + 1
        externalStrings := (isolate.nextObject, resource) :: isolate.externalStrings },
      some isolate.nextObject)
  else
    (isolate, none)

/-- Constructor `v8::Persistent<v8::String>(isolate, local)`: a new strong cell. -/
def newPersistent (isolate : Isolate) (object : ObjectId) : Isolate × HandleCell :=
  ({ isolate with
      globalHandles := isolate.globalHandles ++
        [some { object := object, independent := false, weakParameter := none }] },
    isolate.globalHandles.length)

/-- The call `wrapper.MarkIndependent(isolate)`. -/
def MarkIndependent (isolate : Isolate) (cell : HandleCell) : Isolate :=
  match isolate.handle cell with
  | some h =>
    { isolate with
        globalHandles := isolate.globalHandles.set cell (some { h with independent := true }) }
  | none => isolate

/-- The call `wrapper.MakeWeak(parameter, &makeWeakCallback)`. -/
def MakeWeak (isolate : Isolate) (cell : HandleCell) (parameter : StringImplPtr) : Isolate :=
  match isolate.handle cell with
  | some h =>
    { isolate with
        globalHandles :=
          isolate.globalHandles.set cell (some { h with weakParameter := some parameter }) }
  | none => isolate

/-- The call `wrapper->Dispose(isolate)`: the cell is released. -/
def Dispose (isolate : Isolate) (cell : HandleCell) : Isolate :=
  { isolate with globalHandles := isolate.globalHandles.set cell none }

/-- Modelled from the spec: `UnsafePersistent` is declared in
`bindings/v8/UnsafePersistent.h`, outside the given sources.  It is a raw pointer
to a persistent cell (`none` is the default-constructed, empty value) with enough
information to tell whether the weak reference is still live. -/
structure UnsafePersistent where
  value : Option HandleCell
  deriving DecidableEq, Repr

/-- Wrapping of a persistent handle, `UnsafePersistent<v8::String>(wrapper)`. -/
def UnsafePersistent.ofPersistent (cell : HandleCell) : UnsafePersistent := ⟨some cell⟩

/-- Modelled from the spec: `UnsafePersistent::isWeak()`; true exactly when the
pointer is non-null and its cell is a live weak reference. -/
def UnsafePersistent.isWeak (u : UnsafePersistent) (isolate : Isolate) : Bool :=
  match u.value with
  | none => false
  | some cell =>
    match isolate.handle cell with
    | some h => h.weakParameter.isSome
    | none => false

/-- Modelled from the spec: `UnsafePersistent::newLocal(isolate)`; a new local
handle on the object the cell refers to. -/
def UnsafePersistent.newLocal (u : UnsafePersistent) (isolate : Isolate) : Local :=
  match u.value with
  | none => none
  | some cell => (isolate.handle cell).map GlobalHandle.object

/-- Modelled from the spec: `UnsafePersistent::clear()`; the pointer becomes null. -/
def UnsafePersistent.clear (_u : UnsafePersistent) : UnsafePersistent := ⟨none⟩

/-! ## The cache -/

/-- Modelled from the spec: the member `m_stringCache` is declared in
`bindings/v8/V8ValueCache.h`, outside the given sources.  The spec keys the
mapping by the identity of the native buffer (pointer equality), not by its
contents; the map is a duplicate-free association list on `StringImplPtr`. -/
abbrev HashMap := AList (fun _ : StringImplPtr => UnsafePersistent)

/-- Lookup `HashMap::get`: the stored value, or a default-constructed (empty)
`UnsafePersistent` when the key is absent. -/
def HashMap.get (m : HashMap) (key : StringImplPtr) : UnsafePersistent :=
  (AList.lookup key m).getD ⟨none⟩

/-- Membership test `HashMap::contains`. -/
def HashMap.contains (m : HashMap) (key : StringImplPtr) : Bool :=
  (AList.lookup key m).isSome

/-- Insertion `HashMap::set`: inserts, or overwrites the value of an existing key. -/
def HashMap.set (m : HashMap) (key : StringImplPtr) (value : UnsafePersistent) : HashMap :=
  AList.insert key value m

/-- Deletion `HashMap::remove`: deletes the key if present. -/
def HashMap.remove (m : HashMap) (key : StringImplPtr) : HashMap :=
  AList.erase key m

/-- Number of entries, `HashMap::size`. -/
def HashMap.size (m : HashMap) : Nat := m.entries.length

/-- Modelled from the spec: the data members of `StringCache` are declared in
`bindings/v8/V8ValueCache.h`, outside the given sources.  They are the main
mapping and the last-access slot, which remembers the most recently resolved
(key, value) pair as a plain pointer and a handle (null when cleared). -/
structure StringCache where
  m_stringCache : HashMap
  m_lastV8String : UnsafePersistent
  m_lastStringImpl : Option StringImplPtr
  deriving DecidableEq

/-- Everything the cache's member functions read or write: the native heap of
string buffers, the number of live string resources allocated with `new`, the
engine instance, and the cache of that instance
(`V8PerIsolateData::current()->stringCache()`). -/
structure World where
  strings : StringImplPtr → StringImpl
  stringResources : Nat
  isolate : Isolate
  stringCache : StringCache

/-- The call `stringImpl->ref()`. -/
def World.ref (w : World) (stringImpl : StringImplPtr) : World :=
  { w with
      strings := Function.update w.strings stringImpl
        { w.strings stringImpl with refCount := (w.strings stringImpl).refCount + 1 } }

/-- The call `stringImpl->deref()`. -/
def World.deref (w : World) (stringImpl : StringImplPtr) : World :=
  { w with
      strings := Function.update w.strings stringImpl
        { w.strings stringImpl with refCount := (w.strings stringImpl).refCount - 1 } }

/-- Reference count of a native string. -/
def World.refCount (w : World) (stringImpl : StringImplPtr) : Nat :=
  (w.strings stringImpl).refCount

/-- Modelled from the spec: `StringCache::clearOnGC()` is defined in
`bindings/v8/V8ValueCache.h`, outside the given sources; it invalidates the
last-access slot. -/
def clearOnGC (w : World) : World :=
  { w with
      stringCache :=
        { w.stringCache with
            m_lastStringImpl := none
            m_lastV8String := w.stringCache.m_lastV8String.clear } }

/-- Translation of `StringCache::makeExternalString`.  The resource is allocated
with `new`, handed to `NewExternal`, and deleted again when the engine returns
an empty handle.  Constructing the temporary `String` and the resource changes no
count in this model: the spec gives the cache's whole effect on the reference
count as the explicit `ref()` and `deref()` calls. -/
def makeExternalString (w : World) (string : StringImplPtr) (succeeds : Bool) : World × Local :=
  if (w.strings string).is8Bit then
    let stringResource := WebCoreStringResource.resource8 string
    let w1 := { w with stringResources := w.stringResources + 1 }
    let r := NewExternal w1.isolate stringResource succeeds
    let w2 := { w1 with isolate := r.1 }
    let newString := r.2
    if newString.isNone then
      ({ w2 with stringResources := w2.stringResources - 1 }, newString)
    else
      (w2, newString)
  else
    let stringResource := WebCoreStringResource.resource16 string
    let w1 := { w with stringResources := w.stringResources + 1 }
    let r := NewExternal w1.isolate stringResource succeeds
    let w2 := { w1 with isolate := r.1 }
    let newString := r.2
    if newString.isNone then
      ({ w2 with stringResources := w2.stringResources - 1 }, newString)
    else
      (w2, newString)

/-- Translation of `StringCache::remove`; `none` when the `ASSERT` fails. -/
def remove (w : World) (stringImpl : StringImplPtr) : Option World :=
  if w.stringCache.m_stringCache.contains stringImpl then
    some (clearOnGC
      { w with
          stringCache :=
            { w.stringCache with
                m_stringCache := w.stringCache.m_stringCache.remove stringImpl } })
  else
    none

/-- Translation of `StringCache::makeWeakCallback`. -/
def makeWeakCallback (w : World) (wrapper : HandleCell) (stringImpl : StringImplPtr) :
    Option World :=
  match remove w stringImpl with
  | none => none
  | some w1 =>
    let w2 := { w1 with isolate := Dispose w1.isolate wrapper }
    some (w2.deref stringImpl)

/-- Translation of `StringCache::createStringAndInsertIntoCache`. -/
def createStringAndInsertIntoCache (w : World) (stringImpl : StringImplPtr) (succeeds : Bool) :
    World × Local :=
  let r := makeExternalString w stringImpl succeeds
  let newString := r.2
  match newString with
  | none => (r.1, newString)
  | some object =>
    let p := newPersistent r.1.isolate object
    let wrapper := p.2
    let w1 := { r.1 with isolate := p.1 }
    let w2 := w1.ref stringImpl
    let w3 := { w2 with isolate := MarkIndependent w2.isolate wrapper }
    let w4 := { w3 with isolate := MakeWeak w3.isolate wrapper stringImpl }
    let w5 := { w4 with
      stringCache :=
        { w4.stringCache with m_lastV8String := UnsafePersistent.ofPersistent wrapper } }
    let w6 := { w5 with
      stringCache :=
        { w5.stringCache with
            m_stringCache :=
              w5.stringCache.m_stringCache.set stringImpl w5.stringCache.m_lastV8String } }
    let w7 := { w6 with
      stringCache := { w6.stringCache with m_lastStringImpl := some stringImpl } }
    (w7, newString)

/-- Translation of `StringCache::v8ExternalStringSlow`. -/
def v8ExternalStringSlow (w : World) (stringImpl : StringImplPtr) (succeeds : Bool) :
    World × Local :=
  if (w.strings stringImpl).length = 0 then
    (w, Empty w.isolate)
  else
    let cachedV8String := w.stringCache.m_stringCache.get stringImpl
    if cachedV8String.isWeak w.isolate then
      ({ w with
          stringCache :=
            { w.stringCache with
                m_lastStringImpl := some stringImpl
                m_lastV8String := cachedV8String } },
        cachedV8String.newLocal w.isolate)
    else
      createStringAndInsertIntoCache w stringImpl succeeds

/-- Modelled from the spec: `StringCache::v8ExternalString`, the inline entry point
declared in `bindings/v8/V8ValueCache.h`, outside the given sources.  The spec has
it return the handle of the last-access slot when the slot refers to the same
identity and its reference is still live, and call `v8ExternalStringSlow`
otherwise. -/
def v8ExternalString (w : World) (stringImpl : StringImplPtr) (succeeds : Bool) :
    World × Local :=
  if w.stringCache.m_lastStringImpl = some stringImpl ∧
      w.stringCache.m_lastV8String.isWeak w.isolate = true then
    (w, w.stringCache.m_lastV8String.newLocal w.isolate)
  else
    v8ExternalStringSlow w stringImpl succeeds

/-! ## Runs of the cache -/

/-- The engine's collector firing the finalizer of a weak cell: it invokes the
registered callback on the cell with the parameter registered by `MakeWeak`.
`none` when the cell is not a live weak cell. -/
def fireWeakCallback (w : World) (cell : HandleCell) : Option World :=
  match w.isolate.handle cell with
  | some h =>
    match h.weakParameter with
    | some stringImpl => makeWeakCallback w cell stringImpl
    | none => none
  | none => none

/-- One event in the life of a cache: a resolve that reaches
`v8ExternalStringSlow`, with the engine's allocation outcome, a direct `remove`
call, or the collector finalizing a cell. -/
inductive Op where
  | resolve (stringImpl : StringImplPtr) (succeeds : Bool)
  | remove (stringImpl : StringImplPtr)
  | finalize (cell : HandleCell)
  deriving DecidableEq, Repr

/-- Effect of one event; `none` when the event aborts or cannot occur. -/
def step (w : World) : Op → Option World
  | .resolve stringImpl succeeds => some (v8ExternalStringSlow w stringImpl succeeds).1
  | .remove stringImpl => remove w stringImpl
  | .finalize cell => fireWeakCallback w cell

/-- Effect of a sequence of events, left to right. -/
def run (w : World) : List Op → Option World
  | [] => some w
  | op :: ops =>
    match step w op with
    | some w1 => run w1 ops
    | none => none

/-- The empty cache over a native heap: no entries, a cleared last-access slot,
an engine holding only its canonical empty string, and no string resources. -/
def emptyWorld (strings : StringImplPtr → StringImpl) : World where
  strings := strings
  stringResources := 0
  isolate := { nextObject := 1, externalStrings := [], globalHandles := [] }
  stringCache := { m_stringCache := ∅, m_lastV8String := ⟨none⟩, m_lastStringImpl := none }

/-- Whether an event is a direct `remove` call. -/
def Op.isRemove : Op → Bool
  | .remove _ => true
  | _ => false

/-- States reachable from the empty cache by resolve, remove and finalizer events. -/
def Reachable (strings : StringImplPtr → StringImpl) (w : World) : Prop :=
  ∃ ops : List Op, run (emptyWorld strings) ops = some w

/-- States reachable from the empty cache by resolve and finalizer events only. -/
def ReachableGC (strings : StringImplPtr → StringImpl) (w : World) : Prop :=
  ∃ ops : List Op, (∀ op ∈ ops, op.isRemove = false) ∧ run (emptyWorld strings) ops = some w

/-! ## Invariants of runs -/

/-- Invariant of every run: the entries of the mapping point at live weak cells
registered with their own key, cells refer to allocated and pairwise distinct
objects, and the last-access slot is cleared or repeats a live entry. -/
structure WellFormed (w : World) : Prop where
  entriesLive : ∀ k u, AList.lookup k w.stringCache.m_stringCache = some u →
    ∃ c h, u = ⟨some c⟩ ∧ w.isolate.handle c = some h ∧ h.weakParameter = some k
  objectsAllocated : ∀ c h, w.isolate.handle c = some h → h.object < w.isolate.nextObject
  objectsDistinct : ∀ c c' h h', w.isolate.handle c = some h → w.isolate.handle c' = some h' →
    h.object = h'.object → c = c'
  slotConsistent :
    (w.stringCache.m_lastStringImpl = none ∧ w.stringCache.m_lastV8String = ⟨none⟩) ∨
    ∃ k, w.stringCache.m_lastStringImpl = some k ∧
      AList.lookup k w.stringCache.m_stringCache = some w.stringCache.m_lastV8String ∧
      w.stringCache.m_lastV8String.isWeak w.isolate = true

/-- Invariant of the runs without direct `remove` calls: every live weak cell is
the entry of its key, and each count is the initial one plus one per entry. -/
structure Balanced (strings : StringImplPtr → StringImpl) (w : World) : Prop where
  wellFormed : WellFormed w
  cellsMapped : ∀ c h k, w.isolate.handle c = some h → h.weakParameter = some k →
    AList.lookup k w.stringCache.m_stringCache = some ⟨some c⟩
  counts : ∀ k, w.refCount k =
    (strings k).refCount + (if w.stringCache.m_stringCache.contains k then 1 else 0)

/-! ## Sample data -/

/-- A native heap for concrete runs: address 0 holds the empty string, every other
address a buffer spelling "hello" (8-bit at odd addresses, 16-bit at even ones)
with reference count 2. -/
def sampleStrings : StringImplPtr → StringImpl := fun p =>
  if p = 0 then { characters := [], is8Bit := true, refCount := 1 }
  else { characters := [104, 101, 108, 108, 111], is8Bit := decide (p % 2 = 1), refCount := 2 }

/-- A state whose mapping has an entry for the empty string at address 0. -/
def worldWithEmptyKey : World :=
  { emptyWorld sampleStrings with
      stringCache :=
        { m_stringCache := (∅ : HashMap).set 0 ⟨some 0⟩
          m_lastV8String := ⟨none⟩
          m_lastStringImpl := none } }

/-- The empty cache over `sampleStrings` after one resolve of the string at
address 7. -/
def sampleResolved : World := (v8ExternalStringSlow (emptyWorld sampleStrings) 7 true).1

/-- The state `sampleResolved` after a direct `remove` of address 7. -/
def sampleRemoved : World := (remove sampleResolved 7).getD sampleResolved

/-- The state `sampleResolved` after further events that spare the entry of
address 7: a resolve of address 1, a resolve of address 7 with a failing engine,
the finalizer of the cell of address 1, and another resolve of address 7. -/
def sampleInterleaved : World :=
  (run sampleResolved
    [Op.resolve 1 true, Op.resolve 7 false, Op.finalize 1, Op.resolve 7 true]).getD sampleResolved

/-- A state whose mapping holds a stale entry: address 7 is mapped to cell 0, which
is disposed. -/
def worldWithStaleEntry : World :=
  { emptyWorld sampleStrings with
      isolate := { nextObject := 2, externalStrings := [], globalHandles := [none] }
      stringCache :=
        { m_stringCache := (∅ : HashMap).set 7 ⟨some 0⟩
          m_lastV8String := ⟨none⟩
          m_lastStringImpl := none } }

end WebCore

namespace WebKit

/-! ## The frame-loading delegate (`Source/web/FrameLoaderClientImpl.cpp`) -/

/-- A `WTF::String`, as its list of characters. -/
abbrev WTFString := List Char

/-- What `FrameLoaderClientImpl.cpp` observes of a `KURL`, a class declared outside
the given sources: the answers of `protocolIs` and the last path component. -/
structure KURL where
  protocolIs : WTFString → Bool
  lastPathComponent : WTFString

/-- What the file reads of a `HistoryItem`: its URL. -/
structure HistoryItem where
  url : KURL

/-- A `ResourceError` as the file constructs and reads it. -/
structure ResourceError where
  domain : WTFString
  errorCode : Int
  failingURL : WTFString
  localizedDescription : WTFString
  deriving DecidableEq, Repr

/-- Code the file calls and that is defined elsewhere, taken as parameters: the
constant `backForwardNavigationScheme`, `String::toIntStrict` (`none` when its
`ok` flag is false), the look-ups of `MIMETypeRegistry`,
`getPluginMimeTypeFromExtension`, and `Platform::current()->userAgent`. -/
structure Environment where
  backForwardNavigationScheme : WTFString
  toIntStrict : WTFString → Option Int
  getMIMETypeForExtension : WTFString → WTFString
  getPluginMimeTypeFromExtension : WTFString → WTFString
  isSupportedImageMIMEType : WTFString → Bool
  isSupportedNonImageMIMEType : WTFString → Bool
  platformUserAgent : KURL → WTFString

/-- The embedder's `WebFrameClient`, with the answers of the member functions whose
result the modelled methods use. -/
structure WebFrameClient where
  userAgentOverride : KURL → WTFString
  doNotTrackValue : WTFString
  allowWebGL : Bool → Bool

/-- The embedder's `WebViewClient`; the modelled methods only notify it. -/
inductive WebViewClient where
  | mk
  deriving DecidableEq, Repr

/-- A `WebViewImpl`: its `client()` pointer, `none` when null. -/
structure WebViewImpl where
  client : Option WebViewClient
  deriving DecidableEq, Repr

/-- The `PluginData` of a page: the answer of `supportsMimeType`. -/
structure PluginData where
  supportsMimeType : WTFString → Bool

/-- A `Page`: its `pluginData()` pointer, `none` when null (plugins disabled). -/
structure Page where
  pluginData : Option PluginData

/-- A core `Frame`: its `page()` pointer, `none` when null. -/
structure Frame where
  page : Option Page

/-- A `WebFrameImpl`: the pointers returned by `client()`, `viewImpl()` and
`frame()`, each `none` when null. -/
structure WebFrameImpl where
  client : Option WebFrameClient
  viewImpl : Option WebViewImpl
  frame : Option Frame

/-- The delegate object: its member `m_webFrame`, `none` when null. -/
structure FrameLoaderClientImpl where
  m_webFrame : Option WebFrameImpl

/-- A member function called on the embedder's frame client or view client. -/
inductive ClientCall where
  | didChangeLocationWithinPage
  | unableToImplementPolicyWithError (error : ResourceError)
  | willOpenSocketStream (handle : Nat)
  | willStartUsingPeerConnectionHandler (handler : Nat)
  | willClose
  | didChangeName (name : WTFString)
  | navigateBackForwardSoon (offset : Int)
  deriving DecidableEq, Repr

/-- The values of `ObjectContentType`. -/
inductive ObjectContentType where
  | ObjectContentNone
  | ObjectContentImage
  | ObjectContentFrame
  | ObjectContentNetscapePlugin
  deriving DecidableEq, Repr

/-- Translation of `FrameLoaderClientImpl::dispatchDidChangeLocationWithinPage`.
A method returns the calls it made on the embedder, or `none` when it
dereferenced a null pointer.  The guard tests `m_webFrame`, not its client. -/
def dispatchDidChangeLocationWithinPage (self : FrameLoaderClientImpl) :
    Option (List ClientCall) :=
  match self.m_webFrame with
  | some webFrame =>
    match webFrame.client with
    | some _ => some [ClientCall.didChangeLocationWithinPage]
    | none => none
  | none => some []

/-- Translation of `FrameLoaderClientImpl::dispatchWillClose`, one of the methods
guarded by `if (m_webFrame->client())`. -/
def dispatchWillClose (self : FrameLoaderClientImpl) : Option (List ClientCall) :=
  match self.m_webFrame with
  | some webFrame =>
    if webFrame.client.isSome then some [ClientCall.willClose] else some []
  | none => none

/-- Translation of `FrameLoaderClientImpl::didChangeName`, guarded by an early
return on a null client. -/
def didChangeName (self : FrameLoaderClientImpl) (name : WTFString) :
    Option (List ClientCall) :=
  match self.m_webFrame with
  | some webFrame =>
    if !webFrame.client.isSome then some [] else some [ClientCall.didChangeName name]
  | none => none

/-- Translation of `FrameLoaderClientImpl::allowWebGL`, a guarded method with a
default result. -/
def allowWebGL (self : FrameLoaderClientImpl) (enabledPerSettings : Bool) : Option Bool :=
  match self.m_webFrame with
  | some webFrame =>
    match webFrame.client with
    | some client => some (client.allowWebGL enabledPerSettings)
    | none => some enabledPerSettings
  | none => none

/-- Translation of `FrameLoaderClientImpl::dispatchUnableToImplementPolicy`. -/
def dispatchUnableToImplementPolicy (self : FrameLoaderClientImpl) (error : ResourceError) :
    Option (List ClientCall) :=
  match self.m_webFrame with
  | some webFrame =>
    match webFrame.client with
    | some _ => some [ClientCall.unableToImplementPolicyWithError error]
    | none => none
  | none => none

/-- Translation of `FrameLoaderClientImpl::userAgent`. -/
def userAgent (env : Environment) (self : FrameLoaderClientImpl) (url : KURL) :
    Option WTFString :=
  match self.m_webFrame with
  | some webFrame =>
    match webFrame.client with
    | some client =>
      let override := client.userAgentOverride url
      if !override.isEmpty then some override else some (env.platformUserAgent url)
    | none => none
  | none => none

/-- Translation of `FrameLoaderClientImpl::doNotTrackValue`. -/
def doNotTrackValue (self : FrameLoaderClientImpl) : Option WTFString :=
  match self.m_webFrame with
  | some webFrame =>
    match webFrame.client with
    | some client =>
      let doNotTrack := client.doNotTrackValue
      if !doNotTrack.isEmpty then some doNotTrack else some []
    | none => none
  | none => none

/-- Translation of `FrameLoaderClientImpl::dispatchWillOpenSocketStream`. -/
def dispatchWillOpenSocketStream (self : FrameLoaderClientImpl) (handle : Nat) :
    Option (List ClientCall) :=
  match self.m_webFrame with
  | some webFrame =>
    match webFrame.client with
    | some _ => some [ClientCall.willOpenSocketStream handle]
    | none => none
  | none => none

/-- Translation of
`FrameLoaderClientImpl::dispatchWillStartUsingPeerConnectionHandler`. -/
def dispatchWillStartUsingPeerConnectionHandler (self : FrameLoaderClientImpl)
    (handler : Nat) : Option (List ClientCall) :=
  match self.m_webFrame with
  | some webFrame =>
    match webFrame.client with
    | some _ => some [ClientCall.willStartUsingPeerConnectionHandler handler]
    | none => none
  | none => none

/-- Outcome of `shouldGoToHistoryItem`: the Boolean returned, the calls made on the
view client, and whether `ASSERT_NOT_REACHED()` was passed.  The source follows that
assertion with an explicit `return false`, so it is recorded, not treated as an
abort. -/
structure HistoryDecision where
  value : Bool
  calls : List ClientCall
  assertNotReached : Bool
  deriving DecidableEq, Repr

/-- Translation of `FrameLoaderClientImpl::shouldGoToHistoryItem`; `none` when a
null `m_webFrame` or a null view is dereferenced. -/
def shouldGoToHistoryItem (env : Environment) (self : FrameLoaderClientImpl)
    (item : HistoryItem) : Option HistoryDecision :=
  let url := item.url
  if !url.protocolIs env.backForwardNavigationScheme then
    some { value := true, calls := [], assertNotReached := false }
  else
    match env.toIntStrict url.lastPathComponent with
    | none => some { value := false, calls := [], assertNotReached := true }
    | some offset =>
      match self.m_webFrame with
      | some webFrame =>
        match webFrame.viewImpl with
        | some webview =>
          if webview.client.isSome then
            some { value := false, calls := [ClientCall.navigateBackForwardSoon offset],
                   assertNotReached := false }
          else
            some { value := false, calls := [], assertNotReached := false }
        | none => none
      | none => none

/-- Translation of `FrameLoaderClientImpl::shouldStopLoadingForHistoryItem`. -/
def shouldStopLoadingForHistoryItem (env : Environment) (targetItem : HistoryItem) : Bool :=
  let url := targetItem.url
  !url.protocolIs env.backForwardNavigationScheme

/-- The call `String::reverseFind(c)` as stored in an `int`: the index of the
last occurrence of the character, or -1 when there is none. -/
def reverseFind : WTFString → Char → Int
  | [], _ => -1
  | x :: xs, c =>
    let r := reverseFind xs c
    if r ≥ 0 then r + 1 else if x = c then 0 else -1

/-- The call `String::substring(pos)`: the characters from position `pos` on. -/
def substring (s : WTFString) (pos : Nat) : WTFString := s.drop pos

/-- The statements of `objectContentType` that follow the determination of the
MIME type: the plugin data is fetched through `m_webFrame->frame()->page()` and the
type is classified.  `none` when one of these pointers is null. -/
def classifyMIMEType (env : Environment) (self : FrameLoaderClientImpl)
    (mimeType : WTFString) (shouldPreferPlugInsForImages : Bool) : Option ObjectContentType :=
  match self.m_webFrame with
  | some webFrame =>
    match webFrame.frame with
    | some frame =>
      match frame.page with
      | some page =>
        let pluginData := page.pluginData
        let plugInSupportsMIMEType :=
          match pluginData with
          | some data => data.supportsMimeType mimeType
          | none => false
        if env.isSupportedImageMIMEType mimeType then
          (if shouldPreferPlugInsForImages && plugInSupportsMIMEType then
            some ObjectContentType.ObjectContentNetscapePlugin
          else some ObjectContentType.ObjectContentImage)
        else if plugInSupportsMIMEType then
          some ObjectContentType.ObjectContentNetscapePlugin
        else if env.isSupportedNonImageMIMEType mimeType then
          some ObjectContentType.ObjectContentFrame
        else
          some ObjectContentType.ObjectContentNone
      | none => none
    | none => none
  | none => none

/-- Translation of `FrameLoaderClientImpl::objectContentType`. -/
def objectContentType (env : Environment) (self : FrameLoaderClientImpl) (url : KURL)
    (explicitMimeType : WTFString) (shouldPreferPlugInsForImages : Bool) :
    Option ObjectContentType :=
  if explicitMimeType.isEmpty then
    let filename := url.lastPathComponent
    let extensionPos := reverseFind filename '.'
    let mimeType :=
      if extensionPos ≥ 0 then
        let extension := substring filename (extensionPos + 1).toNat
        let registered := env.getMIMETypeForExtension extension
        if registered.isEmpty then env.getPluginMimeTypeFromExtension extension
        else registered
      else explicitMimeType
    if mimeType.isEmpty then some ObjectContentType.ObjectContentFrame
    else classifyMIMEType env self mimeType shouldPreferPlugInsForImages
  else
    classifyMIMEType env self explicitMimeType shouldPreferPlugInsForImages

/-- From the wording of C19: the text after the last `.` of a file name, if the
name has a `.`. -/
def textAfterLastDot (filename : WTFString) : Option WTFString :=
  if '.' ∈ filename then some (filename.reverse.takeWhile (fun c => c ≠ '.')).reverse
  else none

/-- From the wording of C19: the type `m`, the explicit MIME type if non-empty,
otherwise the type guessed from the extension, registry first, then plugin
look-up; empty when there is no extension or no type is found. -/
def effectiveMIMEType (env : Environment) (url : KURL) (explicitMimeType : WTFString) :
    WTFString :=
  if explicitMimeType ≠ [] then explicitMimeType
  else
    match textAfterLastDot url.lastPathComponent with
    | none => []
    | some extension =>
      if env.getMIMETypeForExtension extension ≠ [] then env.getMIMETypeForExtension extension
      else env.getPluginMimeTypeFromExtension extension

/-- From the wording of C19: the decision table on the type `m`. -/
def objectContentTypeTable (env : Environment) (pluginData : Option PluginData)
    (m : WTFString) (shouldPreferPlugInsForImages : Bool) : ObjectContentType :=
  let pluginSupports : Bool :=
    match pluginData with
    | some data => data.supportsMimeType m
    | none => false
  if m = [] then ObjectContentType.ObjectContentFrame
  else if env.isSupportedImageMIMEType m then
    (if shouldPreferPlugInsForImages ∧ pluginSupports then
      ObjectContentType.ObjectContentNetscapePlugin
    else ObjectContentType.ObjectContentImage)
  else if pluginSupports then ObjectContentType.ObjectContentNetscapePlugin
  else if env.isSupportedNonImageMIMEType m then ObjectContentType.ObjectContentFrame
  else ObjectContentType.ObjectContentNone

/-! ## Sample data for the delegate -/

/-- An environment for concrete runs: the scheme is `bf`, the only strict integer
is `-1`, the extension `png` is registered as the image type `i`, the extension
`swf` is only known to plugins, as type `f`, and `h` is a supported non-image
type. -/
def sampleEnvironment : Environment where
  backForwardNavigationScheme := ['b', 'f']
  toIntStrict := fun s => if s = ['-', '1'] then some (-1) else none
  getMIMETypeForExtension := fun e => if e = ['p', 'n', 'g'] then ['i'] else []
  getPluginMimeTypeFromExtension := fun e => if e = ['s', 'w', 'f'] then ['f'] else []
  isSupportedImageMIMEType := fun m => decide (m = ['i'])
  isSupportedNonImageMIMEType := fun m => decide (m = ['h'])
  platformUserAgent := fun _ => ['u', 'a']

/-- A URL of the back/forward pseudo-scheme of `sampleEnvironment` with last path
component `-1`. -/
def sampleBackForwardURL : KURL where
  protocolIs := fun scheme => decide (scheme = ['b', 'f'])
  lastPathComponent := ['-', '1']

/-- An `http` URL whose last path component is `a.b.swf`. -/
def samplePluginURL : KURL where
  protocolIs := fun scheme => decide (scheme = ['h', 't', 't', 'p'])
  lastPathComponent := ['a', '.', 'b', '.', 's', 'w', 'f']

/-- A page whose plugins support the type `f`. -/
def samplePage : Page where
  pluginData := some { supportsMimeType := fun m => decide (m = ['f']) }

/-- A frame with a view that has a client, attached to `samplePage`, whose own
`client()` is null. -/
def frameWithoutClient : WebFrameImpl where
  client := none
  viewImpl := some { client := some WebViewClient.mk }
  frame := some { page := some samplePage }

/-- The delegate of `frameWithoutClient`. -/
def delegateWithoutClient : FrameLoaderClientImpl where
  m_webFrame := some frameWithoutClient

end WebKit

namespace WebCore

/-! ## Auxiliary lemmas -/

theorem getD_append_length {α : Type} (l : List α) (a d : α) :
    (l ++ [a]).getD l.length d = a := by
  simp [List.getD_eq_getElem?_getD]

theorem set_append_length {α : Type} (l : List α) (a b : α) :
    (l ++ [a]).set l.length b = l ++ [b] := by
  induction l with
  | nil => rfl
  | cons x xs ih => simp [List.set, ih]

theorem makeExternalString_false (w : World) (s : StringImplPtr) :
    makeExternalString w s false = (w, none) := by
  unfold makeExternalString NewExternal
  by_cases h : (w.strings s).is8Bit <;> simp [h]

theorem createStringAndInsertIntoCache_false (w : World) (s : StringImplPtr) :
    createStringAndInsertIntoCache w s false = (w, none) := by
  unfold createStringAndInsertIntoCache
  simp [makeExternalString_false]

theorem makeExternalString_true (w : World) (s : StringImplPtr) :
    makeExternalString w s true =
      ({ w with
          stringResources := w.stringResources + 1
          isolate := { w.isolate with
            nextObject := w.isolate.nextObject + 1
            externalStrings :=
              (w.isolate.nextObject,
                if (w.strings s).is8Bit then WebCoreStringResource.resource8 s
                else WebCoreStringResource.resource16 s) :: w.isolate.externalStrings } },
        some w.isolate.nextObject) := by
  unfold makeExternalString NewExternal
  by_cases h : (w.strings s).is8Bit <;> simp [h]

theorem createStringAndInsertIntoCache_true (w : World) (s : StringImplPtr) :
    createStringAndInsertIntoCache w s true =
      ({ strings := Function.update w.strings s
            { w.strings s with refCount := (w.strings s).refCount + 1 }
         stringResources := w.stringResources + 1
         isolate :=
          { nextObject := w.isolate.nextObject + 1
            externalStrings :=
              (w.isolate.nextObject,
                if (w.strings s).is8Bit then WebCoreStringResource.resource8 s
                else WebCoreStringResource.resource16 s) :: w.isolate.externalStrings
            globalHandles := w.isolate.globalHandles ++
              [some { object := w.isolate.nextObject, independent := true, weakParameter := some s }] }
         stringCache :=
          { m_stringCache := w.stringCache.m_stringCache.set s ⟨some w.isolate.globalHandles.length⟩
            m_lastV8String := ⟨some w.isolate.globalHandles.length⟩
            m_lastStringImpl := some s } },
        some w.isolate.nextObject) := by
  unfold createStringAndInsertIntoCache
  simp [makeExternalString_true, newPersistent, MarkIndependent, MakeWeak, Isolate.handle,
    getD_append_length, set_append_length, World.ref, UnsafePersistent.ofPersistent]

theorem get_set_self (m : HashMap) (k : StringImplPtr) (v : UnsafePersistent) :
    (m.set k v).get k = v := by
  simp [HashMap.get, HashMap.set]

/-- The hit branch of `v8ExternalStringSlow`. -/
theorem v8ExternalStringSlow_hit (w : World) (s : StringImplPtr) (ok : Bool)
    (hlen : (w.strings s).length ≠ 0)
    (hweak : (w.stringCache.m_stringCache.get s).isWeak w.isolate = true) :
    v8ExternalStringSlow w s ok =
      ({ w with
          stringCache :=
            { w.stringCache with
                m_lastStringImpl := some s
                m_lastV8String := w.stringCache.m_stringCache.get s } },
        (w.stringCache.m_stringCache.get s).newLocal w.isolate) := by
  unfold v8ExternalStringSlow
  simp [hlen, hweak]

theorem v8ExternalStringSlow_miss (w : World) (s : StringImplPtr) (ok : Bool)
    (hlen : (w.strings s).length ≠ 0)
    (hweak : (w.stringCache.m_stringCache.get s).isWeak w.isolate = false) :
    v8ExternalStringSlow w s ok = createStringAndInsertIntoCache w s ok := by
  unfold v8ExternalStringSlow
  simp [hlen, hweak]


/-- A hit on the entry already recorded in the last-access slot changes nothing. -/
theorem v8ExternalStringSlow_hit_same (w : World) (s : StringImplPtr) (ok : Bool)
    (hlen : (w.strings s).length ≠ 0)
    (hweak : (w.stringCache.m_stringCache.get s).isWeak w.isolate = true)
    (hkey : w.stringCache.m_lastStringImpl = some s)
    (hval : w.stringCache.m_lastV8String = w.stringCache.m_stringCache.get s) :
    v8ExternalStringSlow w s ok = (w, (w.stringCache.m_stringCache.get s).newLocal w.isolate) := by
  rw [v8ExternalStringSlow_hit w s ok hlen hweak, ← hkey, ← hval]

theorem contains_set_self (m : HashMap) (k : StringImplPtr) (v : UnsafePersistent) :
    (m.set k v).contains k = true := by
  simp [HashMap.contains, HashMap.set]

theorem get_of_not_contains (m : HashMap) (k : StringImplPtr) (h : m.contains k = false) :
    m.get k = ⟨none⟩ := by
  unfold HashMap.contains at h
  unfold HashMap.get
  cases hl : AList.lookup k m with
  | none => rfl
  | some v => simp [hl] at h

theorem v8ExternalStringSlow_empty (w : World) (s : StringImplPtr) (ok : Bool)
    (hlen : (w.strings s).length = 0) :
    v8ExternalStringSlow w s ok = (w, some emptyStringObject) := by
  unfold v8ExternalStringSlow
  simp [hlen, Empty]

theorem getD_append_singleton {α : Type} (l : List α) (a d : α) (c : Nat) :
    (l ++ [a]).getD c d = if c = l.length then a else l.getD c d := by
  simp only [List.getD_eq_getElem?_getD]
  by_cases h : c = l.length
  · subst h; simp
  · simp only [h, if_false]
    rcases Nat.lt_or_gt_of_ne h with h1 | h1
    · rw [List.getElem?_append_left h1]
    · rw [List.getElem?_eq_none (by simp; omega), List.getElem?_eq_none (by omega)]

theorem getD_set_none {α : Type} (l : List (Option α)) (c c' : Nat) :
    (l.set c none).getD c' none = if c' = c then none else l.getD c' none := by
  simp only [List.getD_eq_getElem?_getD, List.getElem?_set]
  by_cases h : c = c'
  · subst h
    by_cases h2 : c < l.length <;> simp [h2]
  · have h' : ¬ c' = c := fun e => h e.symm
    simp [h, h']

theorem handle_length_none (isolate : Isolate) :
    isolate.handle isolate.globalHandles.length = none := by
  simp [Isolate.handle, List.getD_eq_getElem?_getD]

theorem lookup_of_isWeak {m : HashMap} {k : StringImplPtr} {isolate : Isolate}
    (h : (m.get k).isWeak isolate = true) : AList.lookup k m = some (m.get k) := by
  unfold HashMap.get at h ⊢
  cases hl : AList.lookup k m with
  | none => simp [hl, UnsafePersistent.isWeak] at h
  | some v => simp

theorem isWeak_of_live {isolate : Isolate} {c : HandleCell} {h : GlobalHandle} {k : StringImplPtr}
    (hc : isolate.handle c = some h) (hk : h.weakParameter = some k) :
    (⟨some c⟩ : UnsafePersistent).isWeak isolate = true := by
  simp [UnsafePersistent.isWeak, hc, hk]

theorem wellFormed_emptyWorld (strings : StringImplPtr → StringImpl) :
    WellFormed (emptyWorld strings) where
  entriesLive := by intro k u h; simp [emptyWorld] at h
  objectsAllocated := by intro c h hc; simp [emptyWorld, Isolate.handle] at hc
  objectsDistinct := by intro c c' h h' hc; simp [emptyWorld, Isolate.handle] at hc
  slotConsistent := Or.inl ⟨rfl, rfl⟩

theorem balanced_emptyWorld (strings : StringImplPtr → StringImpl) :
    Balanced strings (emptyWorld strings) where
  wellFormed := wellFormed_emptyWorld strings
  cellsMapped := by intro c h k hc; simp [emptyWorld, Isolate.handle] at hc
  counts := by intro k; simp [emptyWorld, World.refCount, HashMap.contains]

theorem create_handle (w : World) (s : StringImplPtr) (c : HandleCell) :
    (createStringAndInsertIntoCache w s true).1.isolate.handle c =
      if c = w.isolate.globalHandles.length then
        some { object := w.isolate.nextObject, independent := true, weakParameter := some s }
      else w.isolate.handle c := by
  rw [createStringAndInsertIntoCache_true]
  simp only [Isolate.handle, getD_append_singleton]

theorem create_lookup (w : World) (s k : StringImplPtr) :
    AList.lookup k (createStringAndInsertIntoCache w s true).1.stringCache.m_stringCache =
      if k = s then some ⟨some w.isolate.globalHandles.length⟩
      else AList.lookup k w.stringCache.m_stringCache := by
  rw [createStringAndInsertIntoCache_true]
  by_cases h : k = s
  · subst h; simp [HashMap.set]
  · simp [HashMap.set, h, AList.lookup_insert_ne h]

theorem create_nextObject (w : World) (s : StringImplPtr) :
    (createStringAndInsertIntoCache w s true).1.isolate.nextObject = w.isolate.nextObject + 1 := by
  rw [createStringAndInsertIntoCache_true]

theorem create_slot (w : World) (s : StringImplPtr) :
    (createStringAndInsertIntoCache w s true).1.stringCache.m_lastStringImpl = some s ∧
    (createStringAndInsertIntoCache w s true).1.stringCache.m_lastV8String =
      ⟨some w.isolate.globalHandles.length⟩ := by
  rw [createStringAndInsertIntoCache_true]
  exact ⟨rfl, rfl⟩

theorem create_refCount (w : World) (s k : StringImplPtr) :
    (createStringAndInsertIntoCache w s true).1.refCount k =
      if k = s then w.refCount s + 1 else w.refCount k := by
  rw [createStringAndInsertIntoCache_true]
  by_cases h : k = s
  · subst h; simp [World.refCount]
  · simp [World.refCount, h]

theorem contains_eq_isSome (m : HashMap) (k : StringImplPtr) :
    m.contains k = (AList.lookup k m).isSome := rfl

theorem wellFormed_create (w : World) (s : StringImplPtr) (hw : WellFormed w) :
    WellFormed (createStringAndInsertIntoCache w s true).1 where
  entriesLive := by
    intro k u hk
    rw [create_lookup] at hk
    by_cases h : k = s
    · subst h
      simp only [if_true, Option.some.injEq] at hk
      subst hk
      refine ⟨w.isolate.globalHandles.length, ⟨w.isolate.nextObject, true, some k⟩, rfl, ?_, rfl⟩
      rw [create_handle]; simp
    · simp only [h, if_false] at hk
      obtain ⟨c, g, hu, hc, hg⟩ := hw.entriesLive k u hk
      refine ⟨c, g, hu, ?_, hg⟩
      rw [create_handle]
      have hne : c ≠ w.isolate.globalHandles.length := by
        intro e; rw [e, handle_length_none] at hc; cases hc
      simp [hne, hc]
  objectsAllocated := by
    intro c g hc
    rw [create_handle] at hc
    rw [create_nextObject]
    by_cases h : c = w.isolate.globalHandles.length
    · simp only [h, if_true, Option.some.injEq] at hc
      subst hc; simp
    · simp only [h, if_false] at hc
      exact Nat.lt_succ_of_lt (hw.objectsAllocated c g hc)
  objectsDistinct := by
    intro c c' g g' hc hc' hobj
    rw [create_handle] at hc hc'
    by_cases h : c = w.isolate.globalHandles.length <;>
      by_cases h' : c' = w.isolate.globalHandles.length
    · rw [h, h']
    · simp only [h, if_true, Option.some.injEq] at hc
      simp only [h', if_false] at hc'
      have hlt := hw.objectsAllocated c' g' hc'
      rw [← hc] at hobj
      exact absurd hobj.symm (Nat.ne_of_lt hlt)
    · simp only [h', if_true, Option.some.injEq] at hc'
      simp only [h, if_false] at hc
      have hlt := hw.objectsAllocated c g hc
      rw [← hc'] at hobj
      exact absurd hobj (Nat.ne_of_lt hlt)
    · simp only [h, if_false] at hc
      simp only [h', if_false] at hc'
      exact hw.objectsDistinct c c' g g' hc hc' hobj
  slotConsistent := by
    refine Or.inr ⟨s, (create_slot w s).1, ?_, ?_⟩
    · rw [create_lookup, (create_slot w s).2]; simp
    · rw [(create_slot w s).2]
      simp [UnsafePersistent.isWeak, create_handle]

theorem balanced_create (strings : StringImplPtr → StringImpl) (w : World) (s : StringImplPtr)
    (hb : Balanced strings w)
    (hmiss : (w.stringCache.m_stringCache.get s).isWeak w.isolate = false) :
    Balanced strings (createStringAndInsertIntoCache w s true).1 where
  wellFormed := wellFormed_create w s hb.wellFormed
  cellsMapped := by
    intro c g k hc hg
    rw [create_handle] at hc
    rw [create_lookup]
    by_cases h : c = w.isolate.globalHandles.length
    · simp only [h, if_true, Option.some.injEq] at hc
      subst hc
      simp only [Option.some.injEq] at hg
      simp [hg, h]
    · simp only [h, if_false] at hc
      have hl := hb.cellsMapped c g k hc hg
      by_cases hk : k = s
      · subst hk
        have : (w.stringCache.m_stringCache.get k).isWeak w.isolate = true := by
          simp [HashMap.get, hl, UnsafePersistent.isWeak, hc, hg]
        rw [this] at hmiss; cases hmiss
      · simp [hk, hl]
  counts := by
    intro k
    rw [create_refCount, contains_eq_isSome, create_lookup]
    by_cases hk : k = s
    · subst hk
      have hnone : AList.lookup k w.stringCache.m_stringCache = none := by
        cases hl : AList.lookup k w.stringCache.m_stringCache with
        | none => rfl
        | some u =>
          obtain ⟨c, g, hu, hc, hg⟩ := hb.wellFormed.entriesLive k u hl
          have : (w.stringCache.m_stringCache.get k).isWeak w.isolate = true := by
            simp [HashMap.get, hl, hu, UnsafePersistent.isWeak, hc, hg]
          rw [this] at hmiss; cases hmiss
      have := hb.counts k
      simp [contains_eq_isSome, hnone] at this
      simp [this]
    · simp only [hk, if_false]
      exact hb.counts k

theorem remove_eq_some {w w' : World} {s : StringImplPtr} (h : remove w s = some w') :
    w.stringCache.m_stringCache.contains s = true ∧
    w' = { w with
      stringCache :=
        { m_stringCache := w.stringCache.m_stringCache.remove s
          m_lastV8String := ⟨none⟩
          m_lastStringImpl := none } } := by
  unfold remove at h
  by_cases hc : w.stringCache.m_stringCache.contains s = true
  · simp only [hc, if_true, Option.some.injEq] at h
    exact ⟨hc, h.symm⟩
  · simp [hc] at h

theorem fireWeakCallback_eq_some {w w' : World} {c : HandleCell}
    (h : fireWeakCallback w c = some w') :
    ∃ g s, w.isolate.handle c = some g ∧ g.weakParameter = some s ∧
      w.stringCache.m_stringCache.contains s = true ∧
      w' =
        { strings := Function.update w.strings s
            { w.strings s with refCount := (w.strings s).refCount - 1 }
          stringResources := w.stringResources
          isolate := Dispose w.isolate c
          stringCache :=
            { m_stringCache := w.stringCache.m_stringCache.remove s
              m_lastV8String := ⟨none⟩
              m_lastStringImpl := none } } := by
  unfold fireWeakCallback at h
  cases hg : w.isolate.handle c with
  | none => simp [hg] at h
  | some g =>
    cases hs : g.weakParameter with
    | none => simp [hg, hs] at h
    | some s =>
      simp only [hg, hs, makeWeakCallback] at h
      cases hr : remove w s with
      | none => simp [hr] at h
      | some w1 =>
        obtain ⟨hc, hw1⟩ := remove_eq_some hr
        simp only [hr, Option.some.injEq] at h
        refine ⟨g, s, rfl, hs, hc, ?_⟩
        rw [← h, hw1]
        rfl

theorem lookup_remove (m : HashMap) (s k : StringImplPtr) :
    AList.lookup k (m.remove s) = if k = s then none else AList.lookup k m := by
  unfold HashMap.remove
  by_cases h : k = s
  · subst h; simp
  · simp [h, AList.lookup_erase_ne h]

theorem handle_dispose (isolate : Isolate) (c c' : HandleCell) :
    (Dispose isolate c).handle c' = if c' = c then none else isolate.handle c' := by
  simp only [Dispose, Isolate.handle, getD_set_none]

theorem wellFormed_remove {w w' : World} {s : StringImplPtr} (hw : WellFormed w)
    (h : remove w s = some w') : WellFormed w' := by
  obtain ⟨_, rfl⟩ := remove_eq_some h
  refine ⟨?_, hw.objectsAllocated, hw.objectsDistinct, Or.inl ⟨rfl, rfl⟩⟩
  intro k u hk
  simp only [lookup_remove] at hk
  by_cases hks : k = s
  · simp [hks] at hk
  · simp only [hks, if_false] at hk
    exact hw.entriesLive k u hk

theorem wellFormed_fire {w w' : World} {c : HandleCell} (hw : WellFormed w)
    (h : fireWeakCallback w c = some w') : WellFormed w' := by
  obtain ⟨g, s, hg, hs, _, rfl⟩ := fireWeakCallback_eq_some h
  refine ⟨?_, ?_, ?_, Or.inl ⟨rfl, rfl⟩⟩
  · intro k u hk
    simp only [lookup_remove] at hk
    by_cases hks : k = s
    · simp [hks] at hk
    · simp only [hks, if_false] at hk
      obtain ⟨c1, g1, hu, hc1, hg1⟩ := hw.entriesLive k u hk
      refine ⟨c1, g1, hu, ?_, hg1⟩
      have hne : c1 ≠ c := by
        intro e
        rw [e, hg] at hc1
        cases hc1
        rw [hs] at hg1
        exact hks (Option.some.inj hg1).symm
      simp only [handle_dispose, hne, if_false]
      exact hc1
  · intro c1 g1 hc1
    simp only [handle_dispose] at hc1
    by_cases hne : c1 = c
    · simp [hne] at hc1
    · simp only [hne, if_false] at hc1
      exact hw.objectsAllocated c1 g1 hc1
  · intro c1 c2 g1 g2 hc1 hc2 hobj
    simp only [handle_dispose] at hc1 hc2
    by_cases h1 : c1 = c
    · simp [h1] at hc1
    · by_cases h2 : c2 = c
      · simp [h2] at hc2
      · simp only [h1, if_false] at hc1
        simp only [h2, if_false] at hc2
        exact hw.objectsDistinct c1 c2 g1 g2 hc1 hc2 hobj

theorem balanced_fire {strings : StringImplPtr → StringImpl} {w w' : World} {c : HandleCell}
    (hb : Balanced strings w) (h : fireWeakCallback w c = some w') : Balanced strings w' := by
  refine ⟨wellFormed_fire hb.wellFormed h, ?_, ?_⟩
  · obtain ⟨g, s, hg, hs, _, rfl⟩ := fireWeakCallback_eq_some h
    intro c1 g1 k hc1 hg1
    simp only [handle_dispose] at hc1
    by_cases hne : c1 = c
    · simp [hne] at hc1
    · simp only [hne, if_false] at hc1
      have hl := hb.cellsMapped c1 g1 k hc1 hg1
      have hks : k ≠ s := by
        intro e
        rw [e, hb.cellsMapped c g s hg hs] at hl
        simp only [Option.some.injEq, UnsafePersistent.mk.injEq] at hl
        exact hne hl.symm
      simp only [lookup_remove, hks, if_false]
      exact hl
  · obtain ⟨g, s, hg, hs, hc, rfl⟩ := fireWeakCallback_eq_some h
    intro k
    have hk := hb.counts k
    by_cases hks : k = s
    · subst hks
      simp only [hc, if_true] at hk
      simp only [World.refCount] at hk
      simp [World.refCount, contains_eq_isSome, lookup_remove, hk]
    · simp only [World.refCount, contains_eq_isSome] at hk
      simp [World.refCount, contains_eq_isSome, lookup_remove, hks, hk]

theorem wellFormed_resolve (w : World) (s : StringImplPtr) (ok : Bool) (hw : WellFormed w) :
    WellFormed (v8ExternalStringSlow w s ok).1 := by
  by_cases hlen : (w.strings s).length = 0
  · rw [v8ExternalStringSlow_empty w s ok hlen]; exact hw
  · cases hweak : (w.stringCache.m_stringCache.get s).isWeak w.isolate with
    | true =>
      rw [v8ExternalStringSlow_hit w s ok hlen hweak]
      exact ⟨hw.entriesLive, hw.objectsAllocated, hw.objectsDistinct,
        Or.inr ⟨s, rfl, lookup_of_isWeak hweak, hweak⟩⟩
    | false =>
      rw [v8ExternalStringSlow_miss w s ok hlen hweak]
      cases ok with
      | false => rw [createStringAndInsertIntoCache_false]; exact hw
      | true => exact wellFormed_create w s hw

theorem balanced_resolve (strings : StringImplPtr → StringImpl) (w : World) (s : StringImplPtr)
    (ok : Bool) (hb : Balanced strings w) : Balanced strings (v8ExternalStringSlow w s ok).1 := by
  by_cases hlen : (w.strings s).length = 0
  · rw [v8ExternalStringSlow_empty w s ok hlen]; exact hb
  · cases hweak : (w.stringCache.m_stringCache.get s).isWeak w.isolate with
    | true =>
      refine ⟨wellFormed_resolve w s ok hb.wellFormed, ?_, ?_⟩
      · rw [v8ExternalStringSlow_hit w s ok hlen hweak]; exact hb.cellsMapped
      · rw [v8ExternalStringSlow_hit w s ok hlen hweak]; exact hb.counts
    | false =>
      rw [v8ExternalStringSlow_miss w s ok hlen hweak]
      cases ok with
      | false => rw [createStringAndInsertIntoCache_false]; exact hb
      | true => exact balanced_create strings w s hb hweak

theorem wellFormed_run (ops : List Op) : ∀ (w w' : World), WellFormed w →
    run w ops = some w' → WellFormed w' := by
  induction ops with
  | nil =>
    intro w w' hw h
    simp only [run, Option.some.injEq] at h
    exact h ▸ hw
  | cons op ops ih =>
    intro w w' hw h
    simp only [run] at h
    cases hs : step w op with
    | none => simp [hs] at h
    | some w1 =>
      simp only [hs] at h
      refine ih w1 w' ?_ h
      cases op with
      | resolve s ok =>
        simp only [step, Option.some.injEq] at hs
        exact hs ▸ wellFormed_resolve w s ok hw
      | remove s => exact wellFormed_remove hw hs
      | finalize c => exact wellFormed_fire hw hs

theorem balanced_run (strings : StringImplPtr → StringImpl) (ops : List Op) :
    ∀ (w w' : World), Balanced strings w → (∀ op ∈ ops, op.isRemove = false) →
      run w ops = some w' → Balanced strings w' := by
  induction ops with
  | nil =>
    intro w w' hw _ h
    simp only [run, Option.some.injEq] at h
    exact h ▸ hw
  | cons op ops ih =>
    intro w w' hw hops h
    simp only [run] at h
    cases hs : step w op with
    | none => simp [hs] at h
    | some w1 =>
      simp only [hs] at h
      refine ih w1 w' ?_ (fun o ho => hops o (List.mem_cons_of_mem _ ho)) h
      cases op with
      | resolve s ok =>
        simp only [step, Option.some.injEq] at hs
        exact hs ▸ balanced_resolve strings w s ok hw
      | remove s =>
        have := hops (Op.remove s) (List.mem_cons_self _ _)
        simp [Op.isRemove] at this
      | finalize c => exact balanced_fire hw hs

theorem wellFormed_of_reachable {strings : StringImplPtr → StringImpl} {w : World}
    (h : Reachable strings w) : WellFormed w := by
  obtain ⟨ops, hrun⟩ := h
  exact wellFormed_run ops _ _ (wellFormed_emptyWorld strings) hrun

theorem balanced_of_reachableGC {strings : StringImplPtr → StringImpl} {w : World}
    (h : ReachableGC strings w) : Balanced strings w := by
  obtain ⟨ops, hops, hrun⟩ := h
  exact balanced_run strings ops _ _ (balanced_emptyWorld strings) hops hrun


/-! ## Lemmas for the claims -/

/-- State and result of a successful resolve, as seen by the next call. -/
theorem resolve_post (w : World) (s : StringImplPtr) (ok : Bool)
    (hlen : (w.strings s).length ≠ 0)
    (hsucc : (v8ExternalStringSlow w s ok).2 ≠ none) :
    ((v8ExternalStringSlow w s ok).1.strings s).length ≠ 0 ∧
    ((v8ExternalStringSlow w s ok).1.stringCache.m_stringCache.get s).isWeak
      (v8ExternalStringSlow w s ok).1.isolate = true ∧
    (v8ExternalStringSlow w s ok).1.stringCache.m_lastStringImpl = some s ∧
    (v8ExternalStringSlow w s ok).1.stringCache.m_lastV8String =
      (v8ExternalStringSlow w s ok).1.stringCache.m_stringCache.get s ∧
    (v8ExternalStringSlow w s ok).2 =
      ((v8ExternalStringSlow w s ok).1.stringCache.m_stringCache.get s).newLocal
        (v8ExternalStringSlow w s ok).1.isolate := by
  cases hweak : (w.stringCache.m_stringCache.get s).isWeak w.isolate with
  | true =>
    rw [v8ExternalStringSlow_hit w s ok hlen hweak]
    exact ⟨hlen, hweak, rfl, rfl, rfl⟩
  | false =>
    rw [v8ExternalStringSlow_miss w s ok hlen hweak] at hsucc ⊢
    cases ok with
    | false => simp [createStringAndInsertIntoCache_false] at hsucc
    | true =>
      rw [createStringAndInsertIntoCache_true]
      refine ⟨?_, ?_, rfl, ?_, ?_⟩
      · simpa [StringImpl.length] using hlen
      · simp [get_set_self, UnsafePersistent.isWeak, Isolate.handle, getD_append_length]
      · simp [get_set_self]
      · simp [get_set_self, UnsafePersistent.newLocal, Isolate.handle, getD_append_length]

theorem run_resolve_same (s : StringImplPtr) (oks : List Bool) (w : World)
    (hlen : (w.strings s).length ≠ 0)
    (hweak : (w.stringCache.m_stringCache.get s).isWeak w.isolate = true)
    (hkey : w.stringCache.m_lastStringImpl = some s)
    (hval : w.stringCache.m_lastV8String = w.stringCache.m_stringCache.get s) :
    run w (oks.map (Op.resolve s)) = some w := by
  induction oks with
  | nil => rfl
  | cons ok oks ih =>
    simp only [List.map_cons, run, step]
    rw [v8ExternalStringSlow_hit_same w s ok hlen hweak hkey hval]
    exact ih

theorem resolve_nextObject_le (w : World) (s : StringImplPtr) (ok : Bool) :
    (v8ExternalStringSlow w s ok).1.isolate.nextObject ≤ w.isolate.nextObject + 1 := by
  by_cases hlen : (w.strings s).length = 0
  · rw [v8ExternalStringSlow_empty w s ok hlen]; exact Nat.le_succ _
  · cases hweak : (w.stringCache.m_stringCache.get s).isWeak w.isolate with
    | true => rw [v8ExternalStringSlow_hit w s ok hlen hweak]; exact Nat.le_succ _
    | false =>
      rw [v8ExternalStringSlow_miss w s ok hlen hweak]
      cases ok with
      | false => rw [createStringAndInsertIntoCache_false]; exact Nat.le_succ _
      | true => rw [create_nextObject]

/-- What a resolve of a non-empty string returns in a well-formed state: nothing,
the object of a live cell registered for that string, or the next fresh object. -/
theorem resolve_result (w : World) (t : StringImplPtr) (ok : Bool) (hw : WellFormed w)
    (hlen : (w.strings t).length ≠ 0) :
    (v8ExternalStringSlow w t ok).2 = none ∨
    (∃ c g, w.stringCache.m_stringCache.get t = ⟨some c⟩ ∧ w.isolate.handle c = some g ∧
      g.weakParameter = some t ∧ (v8ExternalStringSlow w t ok).2 = some g.object) ∨
    ((w.stringCache.m_stringCache.get t).isWeak w.isolate = false ∧
      (v8ExternalStringSlow w t ok).2 = some w.isolate.nextObject) := by
  cases hweak : (w.stringCache.m_stringCache.get t).isWeak w.isolate with
  | true =>
    right; left
    rw [v8ExternalStringSlow_hit w t ok hlen hweak]
    obtain ⟨c, g, hu, hc, hg⟩ := hw.entriesLive t _ (lookup_of_isWeak hweak)
    refine ⟨c, g, hu, hc, hg, ?_⟩
    simp [hu, UnsafePersistent.newLocal, hc]
  | false =>
    rw [v8ExternalStringSlow_miss w t ok hlen hweak]
    cases ok with
    | false => left; rw [createStringAndInsertIntoCache_false]
    | true => right; right; rw [createStringAndInsertIntoCache_true]; exact ⟨rfl, rfl⟩

theorem size_set_of_not_contains (m : HashMap) (k : StringImplPtr) (v : UnsafePersistent)
    (h : m.contains k = false) : (m.set k v).size = m.size + 1 := by
  have hk : k ∉ m := by
    rw [← AList.lookup_isSome]
    unfold HashMap.contains at h
    simp [h]
  unfold HashMap.size HashMap.set
  rw [AList.insert_entries_of_neg hk]
  rfl

theorem size_remove_of_contains (m : HashMap) (k : StringImplPtr)
    (h : m.contains k = true) : (m.remove k).size + 1 = m.size := by
  have hk : k ∈ m := by
    rw [← AList.lookup_isSome]
    exact h
  have hl : (AList.keys (AList.erase k m)).length + 1 = (AList.keys m).length := by
    rw [AList.keys_erase, List.length_erase_of_mem (AList.mem_keys.mp hk)]
    have : 0 < (AList.keys m).length := List.length_pos_of_mem (AList.mem_keys.mp hk)
    omega
  simpa [HashMap.size, HashMap.remove, AList.keys, List.keys] using hl

theorem fireWeakCallback_of_live {w : World} {c : HandleCell} {g : GlobalHandle}
    {s : StringImplPtr} (hc : w.isolate.handle c = some g) (hg : g.weakParameter = some s)
    (hs : w.stringCache.m_stringCache.contains s = true) :
    fireWeakCallback w c = some
      { strings := Function.update w.strings s
          { w.strings s with refCount := (w.strings s).refCount - 1 }
        stringResources := w.stringResources
        isolate := Dispose w.isolate c
        stringCache :=
          { m_stringCache := w.stringCache.m_stringCache.remove s
            m_lastV8String := ⟨none⟩
            m_lastStringImpl := none } } := by
  simp only [fireWeakCallback, hc, hg, makeWeakCallback, remove, hs, if_true]
  rfl

/-- A successful resolve of a non-empty string absent from the mapping, followed
by the finalizer of the new cell. -/
theorem resolve_new (w : World) (p : StringImplPtr) (hlen : (w.strings p).length ≠ 0)
    (habs : w.stringCache.m_stringCache.contains p = false) :
    ∃ (w1 w3 : World) (cell : HandleCell),
      v8ExternalStringSlow w p true = (w1, some w.isolate.nextObject) ∧
      w1.stringCache.m_stringCache.size = w.stringCache.m_stringCache.size + 1 ∧
      w1.refCount p = w.refCount p + 1 ∧
      v8ExternalStringSlow w1 p true = (w1, some w.isolate.nextObject) ∧
      w1.stringCache.m_stringCache.get p = ⟨some cell⟩ ∧
      fireWeakCallback w1 cell = some w3 ∧
      w3.stringCache.m_stringCache.size = w.stringCache.m_stringCache.size ∧
      w3.refCount p = w.refCount p ∧
      w3.stringCache.m_stringCache.contains p = false ∧
      (w3.strings p).length = (w.strings p).length ∧
      w3.isolate.nextObject = w.isolate.nextObject + 1 := by
  have hmiss : (w.stringCache.m_stringCache.get p).isWeak w.isolate = false := by
    rw [get_of_not_contains _ _ habs]; rfl
  have e1 := v8ExternalStringSlow_miss w p true hlen hmiss
  rw [createStringAndInsertIntoCache_true] at e1
  have hcell : Isolate.handle
      { nextObject := w.isolate.nextObject + 1
        externalStrings :=
          (w.isolate.nextObject,
            if (w.strings p).is8Bit then WebCoreStringResource.resource8 p
            else WebCoreStringResource.resource16 p) :: w.isolate.externalStrings
        globalHandles := w.isolate.globalHandles ++
          [some { object := w.isolate.nextObject, independent := true,
                  weakParameter := some p }] }
      w.isolate.globalHandles.length =
        some { object := w.isolate.nextObject, independent := true, weakParameter := some p } := by
    simp [Isolate.handle, getD_append_length]
  refine ⟨_, _, w.isolate.globalHandles.length, e1, ?_, ?_, ?_, ?_,
    fireWeakCallback_of_live hcell rfl (contains_set_self _ _ _), ?_, ?_, ?_, ?_, ?_⟩
  · exact size_set_of_not_contains _ _ _ habs
  · simp [World.refCount]
  · rw [v8ExternalStringSlow_hit_same _ p true]
    · simp [get_set_self, UnsafePersistent.newLocal, hcell]
    · simpa [StringImpl.length] using hlen
    · simp [get_set_self, UnsafePersistent.isWeak, hcell]
    · rfl
    · simp [get_set_self]
  · simp [get_set_self]
  · have h1 := size_remove_of_contains _ p
      (contains_set_self w.stringCache.m_stringCache p ⟨some w.isolate.globalHandles.length⟩)
    have h2 := size_set_of_not_contains w.stringCache.m_stringCache p
      ⟨some w.isolate.globalHandles.length⟩ habs
    simp only [] at h1 h2 ⊢
    omega
  · simp [World.refCount]
  · simp [contains_eq_isSome, lookup_remove]
  · simp [StringImpl.length]
  · rfl

theorem create_result (w : World) (s : StringImplPtr) :
    (createStringAndInsertIntoCache w s true).2 = some w.isolate.nextObject := by
  rw [createStringAndInsertIntoCache_true]

theorem create_length (w : World) (s k : StringImplPtr) :
    ((createStringAndInsertIntoCache w s true).1.strings k).length = (w.strings k).length := by
  rw [createStringAndInsertIntoCache_true]
  by_cases h : k = s
  · subst h; simp [StringImpl.length]
  · simp [h]

theorem create_size (w : World) (s : StringImplPtr)
    (h : w.stringCache.m_stringCache.contains s = false) :
    (createStringAndInsertIntoCache w s true).1.stringCache.m_stringCache.size =
      w.stringCache.m_stringCache.size + 1 := by
  rw [createStringAndInsertIntoCache_true]
  exact size_set_of_not_contains _ _ _ h

theorem create_cells (w : World) (s : StringImplPtr) :
    (createStringAndInsertIntoCache w s true).1.isolate.globalHandles.length =
      w.isolate.globalHandles.length + 1 := by
  rw [createStringAndInsertIntoCache_true]
  simp

/-- A resolve of a non-empty string absent from the mapping, with a willing engine,
is one run of the creation path. -/
theorem resolve_absent (w : World) (s : StringImplPtr) (hlen : (w.strings s).length ≠ 0)
    (habs : w.stringCache.m_stringCache.contains s = false) :
    v8ExternalStringSlow w s true =
      ((createStringAndInsertIntoCache w s true).1, some w.isolate.nextObject) := by
  have hmiss : (w.stringCache.m_stringCache.get s).isWeak w.isolate = false := by
    rw [get_of_not_contains _ _ habs]; rfl
  rw [v8ExternalStringSlow_miss w s true hlen hmiss]
  exact Prod.ext rfl (create_result w s)


theorem create_externalStringsFor (w : World) (s k : StringImplPtr) :
    (createStringAndInsertIntoCache w s true).1.isolate.externalStringsFor k =
      w.isolate.externalStringsFor k + (if s = k then 1 else 0) := by
  rw [createStringAndInsertIntoCache_true]
  have hps : (if (w.strings s).is8Bit then WebCoreStringResource.resource8 s
      else WebCoreStringResource.resource16 s).plainString = s := by
    by_cases h8 : (w.strings s).is8Bit <;> simp [h8, WebCoreStringResource.plainString]
  simp only [Isolate.externalStringsFor, List.filter_cons, hps]
  by_cases hk : s = k <;> simp [hk]

theorem resolve_externalStringsFor_le (w : World) (s : StringImplPtr) (ok : Bool) :
    (v8ExternalStringSlow w s ok).1.isolate.externalStringsFor s ≤
      w.isolate.externalStringsFor s + 1 := by
  by_cases hlen : (w.strings s).length = 0
  · rw [v8ExternalStringSlow_empty w s ok hlen]; exact Nat.le_succ _
  · cases hweak : (w.stringCache.m_stringCache.get s).isWeak w.isolate with
    | true => rw [v8ExternalStringSlow_hit w s ok hlen hweak]; exact Nat.le_succ _
    | false =>
      rw [v8ExternalStringSlow_miss w s ok hlen hweak]
      cases ok with
      | false => rw [createStringAndInsertIntoCache_false]; exact Nat.le_succ _
      | true => rw [create_externalStringsFor]; simp

/-- While the entry of `s` is live, an event other than a direct `remove` and the
finalizer of its cell leaves the entry, its cell, the buffer and the number of
external strings constructed over `s` as they are. -/
theorem entry_stable_step {strings : StringImplPtr → StringImpl} {w w' : World}
    {s : StringImplPtr} {c : HandleCell} {g : GlobalHandle} {op : Op}
    (hb : Balanced strings w)
    (hl : AList.lookup s w.stringCache.m_stringCache = some ⟨some c⟩)
    (hc : w.isolate.handle c = some g) (hg : g.weakParameter = some s)
    (hrem : op.isRemove = false) (hfin : op ≠ Op.finalize c)
    (hstep : step w op = some w') :
    AList.lookup s w'.stringCache.m_stringCache = some ⟨some c⟩ ∧
    w'.isolate.handle c = some g ∧
    (w'.strings s).length = (w.strings s).length ∧
    w'.isolate.externalStringsFor s = w.isolate.externalStringsFor s := by
  have hweak : (w.stringCache.m_stringCache.get s).isWeak w.isolate = true := by
    simp [HashMap.get, hl, UnsafePersistent.isWeak, hc, hg]
  cases op with
  | remove t => simp [Op.isRemove] at hrem
  | resolve t ok =>
    simp only [step, Option.some.injEq] at hstep
    subst hstep
    by_cases hlen : (w.strings t).length = 0
    · rw [v8ExternalStringSlow_empty w t ok hlen]; exact ⟨hl, hc, rfl, rfl⟩
    · cases hwt : (w.stringCache.m_stringCache.get t).isWeak w.isolate with
      | true => rw [v8ExternalStringSlow_hit w t ok hlen hwt]; exact ⟨hl, hc, rfl, rfl⟩
      | false =>
        rw [v8ExternalStringSlow_miss w t ok hlen hwt]
        cases ok with
        | false => rw [createStringAndInsertIntoCache_false]; exact ⟨hl, hc, rfl, rfl⟩
        | true =>
          have hts : t ≠ s := by
            intro e; rw [e, hweak] at hwt; cases hwt
          have hst : s ≠ t := fun e => hts e.symm
          refine ⟨?_, ?_, create_length w t s, ?_⟩
          · rw [create_lookup]; simp [hst, hl]
          · rw [create_handle]
            have hne : c ≠ w.isolate.globalHandles.length := by
              intro e; rw [e, handle_length_none] at hc; cases hc
            simp [hne, hc]
          · rw [create_externalStringsFor]; simp [hts]
  | finalize c' =>
    simp only [step] at hstep
    obtain ⟨g', s', hc', hg', _, rfl⟩ := fireWeakCallback_eq_some hstep
    have hcc : c ≠ c' := fun e => hfin (by rw [e])
    have hss : s ≠ s' := by
      intro e
      have h2 := hb.cellsMapped c' g' s' hc' hg'
      rw [← e, hl] at h2
      simp only [Option.some.injEq, UnsafePersistent.mk.injEq] at h2
      exact hcc h2
    refine ⟨?_, ?_, ?_, rfl⟩
    · simp [lookup_remove, hss, hl]
    · simp [handle_dispose, hcc, hc]
    · simp [hss, StringImpl.length]

theorem entry_stable_run {strings : StringImplPtr → StringImpl} {s : StringImplPtr}
    {c : HandleCell} {g : GlobalHandle} (ops : List Op) :
    ∀ (w w' : World), Balanced strings w →
      AList.lookup s w.stringCache.m_stringCache = some ⟨some c⟩ →
      w.isolate.handle c = some g → g.weakParameter = some s →
      (∀ op ∈ ops, op.isRemove = false ∧ op ≠ Op.finalize c) →
      run w ops = some w' →
      AList.lookup s w'.stringCache.m_stringCache = some ⟨some c⟩ ∧
      w'.isolate.handle c = some g ∧
      (w'.strings s).length = (w.strings s).length ∧
      w'.isolate.externalStringsFor s = w.isolate.externalStringsFor s := by
  induction ops with
  | nil =>
    intro w w' _ hl hc _ _ h
    simp only [run, Option.some.injEq] at h
    subst h
    exact ⟨hl, hc, rfl, rfl⟩
  | cons op ops ih =>
    intro w w' hb hl hc hg hops h
    simp only [run] at h
    cases hs : step w op with
    | none => simp [hs] at h
    | some w1 =>
      simp only [hs] at h
      have hop := hops op (List.mem_cons_self _ _)
      obtain ⟨a1, a2, a3, a4⟩ := entry_stable_step hb hl hc hg hop.1 hop.2 hs
      have hb1 : Balanced strings w1 := by
        cases op with
        | resolve t ok =>
          simp only [step, Option.some.injEq] at hs
          exact hs ▸ balanced_resolve strings w t ok hb
        | remove t => simp [Op.isRemove] at hop
        | finalize c' => exact balanced_fire hb hs
      obtain ⟨b1, b2, b3, b4⟩ :=
        ih w1 w' hb1 a1 a2 hg (fun o ho => hops o (List.mem_cons_of_mem _ ho)) h
      exact ⟨b1, b2, b3.trans a3, b4.trans a4⟩

/-! ## Claims -/

/-- C1 (identity reuse).  If `v8ExternalStringSlow` succeeds on a non-empty
string, then in the state it leaves the lookup for that string finds a live weak
reference (so the next call takes the hit branch, not the creation path), the
next call returns the same handle, hence the same engine object, whatever the
engine would answer to an allocation, and it leaves the whole state unchanged. -/
theorem identity_reuse (w : World) (s : StringImplPtr) (ok1 ok2 : Bool)
    (hlen : (w.strings s).length ≠ 0)
    (hsucc : (v8ExternalStringSlow w s ok1).2 ≠ none) :
    ((v8ExternalStringSlow w s ok1).1.stringCache.m_stringCache.get s).isWeak
        (v8ExternalStringSlow w s ok1).1.isolate = true ∧
    (v8ExternalStringSlow (v8ExternalStringSlow w s ok1).1 s ok2).2
        = (v8ExternalStringSlow w s ok1).2 ∧
    (v8ExternalStringSlow (v8ExternalStringSlow w s ok1).1 s ok2).1
        = (v8ExternalStringSlow w s ok1).1 := by
  obtain ⟨h1, h2, h3, h4, h5⟩ := resolve_post w s ok1 hlen hsucc
  refine ⟨h2, ?_⟩
  rw [v8ExternalStringSlow_hit_same _ s ok2 h1 h2 h3 h4]
  exact ⟨h5.symm, rfl⟩

/-- Witness for `identity_reuse`: the string at address 7 resolved twice on the
empty cache, the second time with an engine that would refuse to allocate. -/
theorem identity_reuse_witness :
    (((emptyWorld sampleStrings).strings 7).length ≠ 0 ∧
      (v8ExternalStringSlow (emptyWorld sampleStrings) 7 true).2 ≠ none) ∧
    (((v8ExternalStringSlow (emptyWorld sampleStrings) 7 true).1.stringCache.m_stringCache.get
        7).isWeak (v8ExternalStringSlow (emptyWorld sampleStrings) 7 true).1.isolate = true ∧
      (v8ExternalStringSlow (v8ExternalStringSlow (emptyWorld sampleStrings) 7 true).1 7 false).2
        = (v8ExternalStringSlow (emptyWorld sampleStrings) 7 true).2 ∧
      (v8ExternalStringSlow (v8ExternalStringSlow (emptyWorld sampleStrings) 7 true).1 7 false).1
        = (v8ExternalStringSlow (emptyWorld sampleStrings) 7 true).1) :=
  ⟨⟨by decide, by decide⟩,
    identity_reuse (emptyWorld sampleStrings) 7 true false (by decide) (by decide)⟩

/-- C2 (no duplicate externalization).  In every state reachable from the empty
cache by resolve calls and finalizer invocations, two live weak cells registered
for the same native string are one cell and refer to one engine object: the
cache has at most one live external string per identity.  And after a successful
resolve of a non-empty string, over any further events other than a direct
`remove` and the finalizer of that string's cell (resolves of any strings with
any engine answers, finalizers of other cells), the lookup of the string stays a
live weak reference, every resolve of it returns the handle of the first call,
and the engine has constructed at most one external string over the buffer since
before the first call: the creation path ran at most once. -/
theorem no_duplicate_externalization (strings : StringImplPtr → StringImpl) (w : World)
    (s : StringImplPtr) (hreach : ReachableGC strings w) :
    (∀ c c' g g', w.isolate.handle c = some g → g.weakParameter = some s →
      w.isolate.handle c' = some g' → g'.weakParameter = some s →
      c = c' ∧ g.object = g'.object) ∧
    (∀ (ok : Bool) (ops : List Op) (w' : World), (w.strings s).length ≠ 0 →
      (v8ExternalStringSlow w s ok).2 ≠ none →
      (∀ op ∈ ops, op.isRemove = false ∧
        ∀ c, (v8ExternalStringSlow w s ok).1.stringCache.m_stringCache.get s = ⟨some c⟩ →
          op ≠ Op.finalize c) →
      run (v8ExternalStringSlow w s ok).1 ops = some w' →
      (w'.stringCache.m_stringCache.get s).isWeak w'.isolate = true ∧
      (∀ ok', (v8ExternalStringSlow w' s ok').2 = (v8ExternalStringSlow w s ok).2) ∧
      w'.isolate.externalStringsFor s ≤ w.isolate.externalStringsFor s + 1) := by
  have hb := balanced_of_reachableGC hreach
  constructor
  · intro c c' g g' hc hg hc' hg'
    have h1 := hb.cellsMapped c g s hc hg
    have h2 := hb.cellsMapped c' g' s hc' hg'
    rw [h1] at h2
    simp only [Option.some.injEq, UnsafePersistent.mk.injEq] at h2
    subst h2
    rw [hc] at hc'
    cases hc'
    exact ⟨rfl, rfl⟩
  · intro ok ops w' hlen hsucc hops hrun
    obtain ⟨h1, h2, _, _, h5⟩ := resolve_post w s ok hlen hsucc
    have hb1 := balanced_resolve strings w s ok hb
    have hl := lookup_of_isWeak h2
    obtain ⟨c, g, hu, hc, hg⟩ := hb1.wellFormed.entriesLive s _ hl
    rw [hu] at hl
    obtain ⟨a1, a2, a3, a4⟩ := entry_stable_run ops _ w' hb1 hl hc hg
      (fun op hop => ⟨(hops op hop).1, (hops op hop).2 c hu⟩) hrun
    have hget : w'.stringCache.m_stringCache.get s = ⟨some c⟩ := by simp [HashMap.get, a1]
    have hweak : (w'.stringCache.m_stringCache.get s).isWeak w'.isolate = true := by
      rw [hget]; exact isWeak_of_live a2 hg
    refine ⟨hweak, ?_, ?_⟩
    · intro ok'
      rw [v8ExternalStringSlow_hit w' s ok' (by rw [a3]; exact h1) hweak, h5, hu, hget]
      simp [UnsafePersistent.newLocal, a2, hc]
    · rw [a4]; exact resolve_externalStringsFor_le w s ok

/-- Witness for `no_duplicate_externalization`: the empty cache, the string at
address 7, and the events of `sampleInterleaved` after its first resolve. -/
theorem no_duplicate_externalization_witness :
    (ReachableGC sampleStrings (emptyWorld sampleStrings) ∧
      ((emptyWorld sampleStrings).strings 7).length ≠ 0 ∧
      (v8ExternalStringSlow (emptyWorld sampleStrings) 7 true).2 ≠ none ∧
      run (v8ExternalStringSlow (emptyWorld sampleStrings) 7 true).1
        [Op.resolve 1 true, Op.resolve 7 false, Op.finalize 1, Op.resolve 7 true]
          = some sampleInterleaved) ∧
    ((sampleInterleaved.stringCache.m_stringCache.get 7).isWeak sampleInterleaved.isolate
        = true ∧
      (∀ ok', (v8ExternalStringSlow sampleInterleaved 7 ok').2
        = (v8ExternalStringSlow (emptyWorld sampleStrings) 7 true).2) ∧
      sampleInterleaved.isolate.externalStringsFor 7
        ≤ (emptyWorld sampleStrings).isolate.externalStringsFor 7 + 1) :=
  ⟨⟨⟨[], by decide, rfl⟩, by decide, by decide, rfl⟩,
    (no_duplicate_externalization sampleStrings (emptyWorld sampleStrings) 7
      ⟨[], by decide, rfl⟩).2 true
      [Op.resolve 1 true, Op.resolve 7 false, Op.finalize 1, Op.resolve 7 true]
      sampleInterleaved (by decide) (by decide)
      (fun op hop => ⟨by revert op hop; decide, fun c hc => by
        have h0 : (v8ExternalStringSlow (emptyWorld sampleStrings) 7
            true).1.stringCache.m_stringCache.get 7 = ⟨some 0⟩ := by decide
        rw [h0] at hc
        cases hc
        revert op hop
        decide⟩)
      rfl⟩

/-- C3 (reference-count accounting).  For a non-empty string absent from the
mapping, a successful `v8ExternalStringSlow` leaves its reference count exactly one
higher, and the finalizer fired for the cell of the new entry runs to completion
and leaves the count at its value before the call. -/
theorem refcount_accounting (w : World) (s : StringImplPtr) (ok : Bool)
    (hlen : (w.strings s).length ≠ 0)
    (habsent : w.stringCache.m_stringCache.contains s = false)
    (hsucc : (v8ExternalStringSlow w s ok).2 ≠ none) :
    (v8ExternalStringSlow w s ok).1.refCount s = w.refCount s + 1 ∧
    ∃ cell w2,
      (v8ExternalStringSlow w s ok).1.stringCache.m_stringCache.get s = ⟨some cell⟩ ∧
      fireWeakCallback (v8ExternalStringSlow w s ok).1 cell = some w2 ∧
      w2.refCount s = w.refCount s := by
  have hmiss : (w.stringCache.m_stringCache.get s).isWeak w.isolate = false := by
    rw [get_of_not_contains _ _ habsent]; rfl
  rw [v8ExternalStringSlow_miss w s ok hlen hmiss] at hsucc ⊢
  cases ok with
  | false => simp [createStringAndInsertIntoCache_false] at hsucc
  | true =>
    rw [createStringAndInsertIntoCache_true]
    refine ⟨by simp [World.refCount], w.isolate.globalHandles.length, ?_⟩
    simp [get_set_self, fireWeakCallback, Isolate.handle, getD_append_length, makeWeakCallback,
      remove, contains_set_self, clearOnGC, World.deref, World.refCount, Dispose]

/-- Witness for `refcount_accounting`: the string at address 7 on the empty cache. -/
theorem refcount_accounting_witness :
    (((emptyWorld sampleStrings).strings 7).length ≠ 0 ∧
      (emptyWorld sampleStrings).stringCache.m_stringCache.contains 7 = false ∧
      (v8ExternalStringSlow (emptyWorld sampleStrings) 7 true).2 ≠ none) ∧
    ((v8ExternalStringSlow (emptyWorld sampleStrings) 7 true).1.refCount 7
        = (emptyWorld sampleStrings).refCount 7 + 1 ∧
      ∃ cell w2,
        (v8ExternalStringSlow (emptyWorld sampleStrings) 7 true).1.stringCache.m_stringCache.get 7
          = ⟨some cell⟩ ∧
        fireWeakCallback (v8ExternalStringSlow (emptyWorld sampleStrings) 7 true).1 cell
          = some w2 ∧
        w2.refCount 7 = (emptyWorld sampleStrings).refCount 7) :=
  ⟨⟨by decide, by decide, by decide⟩,
    refcount_accounting (emptyWorld sampleStrings) 7 true (by decide) (by decide) (by decide)⟩

/-- C4 (allocation-failure atomicity).  When a non-empty string misses the cache
and the engine's external-string construction fails, `v8ExternalStringSlow`
returns the empty handle and the whole state is unchanged: no entry, no change of
the last-access slot, of any reference count, or of the number of live string
resources. -/
theorem allocation_failure_atomic (w : World) (s : StringImplPtr)
    (hlen : (w.strings s).length ≠ 0)
    (hmiss : (w.stringCache.m_stringCache.get s).isWeak w.isolate = false) :
    v8ExternalStringSlow w s false = (w, none) := by
  rw [v8ExternalStringSlow_miss w s false hlen hmiss, createStringAndInsertIntoCache_false]

/-- Witness for `allocation_failure_atomic`: the string at address 7 on the empty
cache with a failing engine. -/
theorem allocation_failure_atomic_witness :
    (((emptyWorld sampleStrings).strings 7).length ≠ 0 ∧
      ((emptyWorld sampleStrings).stringCache.m_stringCache.get 7).isWeak
        (emptyWorld sampleStrings).isolate = false) ∧
    v8ExternalStringSlow (emptyWorld sampleStrings) 7 false = (emptyWorld sampleStrings, none) :=
  ⟨⟨by decide, by decide⟩,
    allocation_failure_atomic (emptyWorld sampleStrings) 7 (by decide) (by decide)⟩

/-- C5 (empty-string shortcut).  On a string of length zero
`v8ExternalStringSlow` returns the canonical empty-string handle and the whole
state (mapping, last-access slot, reference counts, engine) is unchanged, in
every state, including those whose mapping contains the string. -/
theorem empty_string_shortcut (w : World) (s : StringImplPtr) (ok : Bool)
    (hlen : (w.strings s).length = 0) :
    v8ExternalStringSlow w s ok = (w, Empty w.isolate) ∧
    Empty w.isolate = some emptyStringObject := by
  unfold v8ExternalStringSlow
  simp [hlen, Empty]

/-- Witness for `empty_string_shortcut`: the empty string at address 0 in a state
whose mapping contains that address. -/
theorem empty_string_shortcut_witness :
    ((worldWithEmptyKey.strings 0).length = 0 ∧
      worldWithEmptyKey.stringCache.m_stringCache.contains 0 = true) ∧
    (v8ExternalStringSlow worldWithEmptyKey 0 true
        = (worldWithEmptyKey, Empty worldWithEmptyKey.isolate) ∧
      Empty worldWithEmptyKey.isolate = some emptyStringObject) :=
  ⟨⟨by decide, by decide⟩, empty_string_shortcut worldWithEmptyKey 0 true (by decide)⟩

/-- C6 (removal clears the fast path).  In a reachable state whose last-access
slot records the string `s` with a handle on the object `o`, removing the entry of
`s`, by a direct `remove` or by the finalizer of a cell registered for `s`, leaves
the slot cleared and `s` absent; a following resolve of any other non-empty string
`t` never returns `o`: it returns nothing (the engine failed), the object of the
entry of `t`, or the next fresh object. -/
theorem removal_clears_fast_path (strings : StringImplPtr → StringImpl) (w w1 : World)
    (s : StringImplPtr) (o : ObjectId) (hreach : Reachable strings w)
    (hslot : w.stringCache.m_lastStringImpl = some s)
    (hobj : w.stringCache.m_lastV8String.newLocal w.isolate = some o)
    (hrem : remove w s = some w1 ∨
      ∃ c g, w.isolate.handle c = some g ∧ g.weakParameter = some s ∧
        fireWeakCallback w c = some w1) :
    w1.stringCache.m_lastStringImpl = none ∧
    w1.stringCache.m_lastV8String = ⟨none⟩ ∧
    w1.stringCache.m_stringCache.contains s = false ∧
    ∀ (t : StringImplPtr) (ok : Bool), t ≠ s → (w1.strings t).length ≠ 0 →
      (v8ExternalStringSlow w1 t ok).2 ≠ some o ∧
      ((v8ExternalStringSlow w1 t ok).2 = none ∨
        (v8ExternalStringSlow w1 t ok).2 =
          (w1.stringCache.m_stringCache.get t).newLocal w1.isolate ∨
        (v8ExternalStringSlow w1 t ok).2 = some w1.isolate.nextObject) := by
  have hw := wellFormed_of_reachable hreach
  -- the cell behind the slot is registered for `s` and refers to `o`
  obtain ⟨cs, gs, hcs, hgs, hos⟩ :
      ∃ cs gs, w.isolate.handle cs = some gs ∧ gs.weakParameter = some s ∧ gs.object = o := by
    rcases hw.slotConsistent with ⟨h, _⟩ | ⟨k, hk, hl, _⟩
    · rw [h] at hslot; cases hslot
    · rw [hk] at hslot
      have hks : k = s := Option.some.inj hslot
      obtain ⟨c, g, hu, hc, hg⟩ := hw.entriesLive k _ hl
      refine ⟨c, g, hc, hks ▸ hg, ?_⟩
      rw [hu] at hobj
      simpa [UnsafePersistent.newLocal, hc] using hobj
  -- facts shared by the two ways of removing the entry
  have hw1 : WellFormed w1 := by
    rcases hrem with h | ⟨c, g, _, _, h⟩
    · exact wellFormed_remove hw h
    · exact wellFormed_fire hw h
  have hcells : ∀ c g, w1.isolate.handle c = some g → w.isolate.handle c = some g := by
    rcases hrem with h | ⟨c, g, _, _, h⟩
    · obtain ⟨_, rfl⟩ := remove_eq_some h
      exact fun _ _ hc => hc
    · obtain ⟨g', s', _, _, _, rfl⟩ := fireWeakCallback_eq_some h
      intro c1 g1 hc1
      simp only [handle_dispose] at hc1
      by_cases hne : c1 = c
      · simp [hne] at hc1
      · simpa [hne] using hc1
  have hnext : w1.isolate.nextObject = w.isolate.nextObject := by
    rcases hrem with h | ⟨c, g, _, _, h⟩
    · obtain ⟨_, rfl⟩ := remove_eq_some h; rfl
    · obtain ⟨g', s', _, _, _, rfl⟩ := fireWeakCallback_eq_some h; rfl
  have hcache : w1.stringCache =
      { m_stringCache := w.stringCache.m_stringCache.remove s
        m_lastV8String := ⟨none⟩
        m_lastStringImpl := none } := by
    rcases hrem with h | ⟨c, g, hc, hg, h⟩
    · obtain ⟨_, rfl⟩ := remove_eq_some h; rfl
    · obtain ⟨g', s', hc', hg', _, rfl⟩ := fireWeakCallback_eq_some h
      rw [hc] at hc'
      cases hc'
      rw [hg] at hg'
      cases hg'
      rfl
  refine ⟨by rw [hcache], by rw [hcache], ?_, ?_⟩
  · rw [hcache]; simp [contains_eq_isSome, lookup_remove]
  · intro t ok hts hlen
    rcases resolve_result w1 t ok hw1 hlen with hnone | ⟨c, g, hget, hc, hg, hres⟩ | ⟨_, hres⟩
    · exact ⟨by rw [hnone]; simp, Or.inl hnone⟩
    · refine ⟨?_, Or.inr (Or.inl ?_)⟩
      · rw [hres]
        intro heq
        have hco : g.object = gs.object := by rw [hos]; exact Option.some.inj heq
        have hcc := hw.objectsDistinct c cs g gs (hcells c g hc) hcs hco
        subst hcc
        rw [hcells c g hc] at hcs
        cases hcs
        rw [hg] at hgs
        exact hts (Option.some.inj hgs)
      · rw [hres, hget]; simp [UnsafePersistent.newLocal, hc]
    · refine ⟨?_, Or.inr (Or.inr hres)⟩
      rw [hres, hnext]
      intro heq
      have hlt := hw.objectsAllocated cs gs hcs
      rw [hos, ← Option.some.inj heq] at hlt
      exact Nat.lt_irrefl _ hlt

/-- Witness for `removal_clears_fast_path`: address 7 resolved on the empty cache,
then removed directly. -/
theorem removal_clears_fast_path_witness :
    (Reachable sampleStrings sampleResolved ∧
      sampleResolved.stringCache.m_lastStringImpl = some 7 ∧
      sampleResolved.stringCache.m_lastV8String.newLocal sampleResolved.isolate = some 1 ∧
      remove sampleResolved 7 = some sampleRemoved) ∧
    (sampleRemoved.stringCache.m_lastStringImpl = none ∧
      sampleRemoved.stringCache.m_lastV8String = ⟨none⟩ ∧
      sampleRemoved.stringCache.m_stringCache.contains 7 = false ∧
      ∀ (t : StringImplPtr) (ok : Bool), t ≠ 7 → (sampleRemoved.strings t).length ≠ 0 →
        (v8ExternalStringSlow sampleRemoved t ok).2 ≠ some 1 ∧
        ((v8ExternalStringSlow sampleRemoved t ok).2 = none ∨
          (v8ExternalStringSlow sampleRemoved t ok).2 =
            (sampleRemoved.stringCache.m_stringCache.get t).newLocal sampleRemoved.isolate ∨
          (v8ExternalStringSlow sampleRemoved t ok).2 = some sampleRemoved.isolate.nextObject)) :=
  ⟨⟨⟨[Op.resolve 7 true], rfl⟩, by decide, by decide, rfl⟩,
    removal_clears_fast_path sampleStrings sampleResolved sampleRemoved 7 1
      ⟨[Op.resolve 7 true], rfl⟩ (by decide) (by decide) (Or.inl rfl)⟩

/-- C7 (last-access-slot invariant).  In every state reachable from the empty
cache by resolve, remove and finalizer events, the slot is cleared (null identity
and null handle) or holds an identity that the mapping contains, mapped to the
very handle in the slot, which is a live weak reference. -/
theorem slot_invariant (strings : StringImplPtr → StringImpl) (w : World)
    (hreach : Reachable strings w) :
    (w.stringCache.m_lastStringImpl = none ∧ w.stringCache.m_lastV8String = ⟨none⟩) ∨
    ∃ k, w.stringCache.m_lastStringImpl = some k ∧
      w.stringCache.m_stringCache.contains k = true ∧
      w.stringCache.m_stringCache.get k = w.stringCache.m_lastV8String ∧
      w.stringCache.m_lastV8String.isWeak w.isolate = true := by
  rcases (wellFormed_of_reachable hreach).slotConsistent with h | ⟨k, hk, hl, hweak⟩
  · exact Or.inl h
  · exact Or.inr ⟨k, hk, by simp [HashMap.contains, hl], by simp [HashMap.get, hl], hweak⟩


/-- Witness for `slot_invariant`: the state after one resolve of address 7. -/
theorem slot_invariant_witness :
    Reachable sampleStrings sampleResolved ∧
    ((sampleResolved.stringCache.m_lastStringImpl = none ∧
        sampleResolved.stringCache.m_lastV8String = ⟨none⟩) ∨
      ∃ k, sampleResolved.stringCache.m_lastStringImpl = some k ∧
        sampleResolved.stringCache.m_stringCache.contains k = true ∧
        sampleResolved.stringCache.m_stringCache.get k
          = sampleResolved.stringCache.m_lastV8String ∧
        sampleResolved.stringCache.m_lastV8String.isWeak sampleResolved.isolate = true) :=
  ⟨⟨[Op.resolve 7 true], rfl⟩,
    slot_invariant sampleStrings sampleResolved ⟨[Op.resolve 7 true], rfl⟩⟩

/-- C8, amended (ownership invariant).  In every state reachable from the empty
cache by resolve calls and finalizer invocations, without direct `remove` calls,
the reference count of every identity present in the mapping is its initial count
plus exactly one. -/
theorem ownership_invariant (strings : StringImplPtr → StringImpl) (w : World)
    (s : StringImplPtr) (hreach : ReachableGC strings w)
    (hs : w.stringCache.m_stringCache.contains s = true) :
    w.refCount s = (strings s).refCount + 1 := by
  have h := (balanced_of_reachableGC hreach).counts s
  simpa [hs] using h


/-- Witness for `ownership_invariant`: the state after one resolve of address 7. -/
theorem ownership_invariant_witness :
    (ReachableGC sampleStrings sampleResolved ∧
      sampleResolved.stringCache.m_stringCache.contains 7 = true) ∧
    sampleResolved.refCount 7 = (sampleStrings 7).refCount + 1 :=
  ⟨⟨⟨[Op.resolve 7 true], by decide, rfl⟩, by decide⟩,
    ownership_invariant sampleStrings sampleResolved 7
      ⟨[Op.resolve 7 true], by decide, rfl⟩ (by decide)⟩

/-- C8 as stated fails: resolve, direct `remove`, resolve of address 7 reaches a
state whose mapping contains address 7 while the cache has taken two references
on it and released none. -/
theorem ownership_counterexample :
    ∃ w, run (emptyWorld sampleStrings) [Op.resolve 7 true, Op.remove 7, Op.resolve 7 true]
        = some w ∧
      Reachable sampleStrings w ∧
      w.stringCache.m_stringCache.contains 7 = true ∧
      w.refCount 7 = (sampleStrings 7).refCount + 2 ∧
      w.refCount 7 ≠ (sampleStrings 7).refCount + 1 :=
  ⟨_, rfl, ⟨[Op.resolve 7 true, Op.remove 7, Op.resolve 7 true], rfl⟩,
    by decide, by decide, by decide⟩

/-- C9 (end-to-end scenario).  On the empty cache over any heap holding a
non-empty string at `p`: resolve gives a handle `h1`, one entry and a count one
above the initial one; a second resolve gives `h1` again and changes nothing; the
finalizer of the entry's cell leaves no entry and the initial count; a third
resolve gives a handle `h2` on the newly constructed object, different from `h1`,
and one entry. -/
theorem end_to_end_scenario (strings : StringImplPtr → StringImpl) (p : StringImplPtr)
    (hlen : (strings p).length ≠ 0) :
    ∃ (w1 w3 w4 : World) (h1 h2 : ObjectId) (cell : HandleCell),
      v8ExternalStringSlow (emptyWorld strings) p true = (w1, some h1) ∧
      w1.stringCache.m_stringCache.size = 1 ∧
      w1.refCount p = (strings p).refCount + 1 ∧
      v8ExternalStringSlow w1 p true = (w1, some h1) ∧
      w1.stringCache.m_stringCache.get p = ⟨some cell⟩ ∧
      fireWeakCallback w1 cell = some w3 ∧
      w3.stringCache.m_stringCache.size = 0 ∧
      w3.refCount p = (strings p).refCount ∧
      v8ExternalStringSlow w3 p true = (w4, some h2) ∧
      h2 = w3.isolate.nextObject ∧
      h2 ≠ h1 ∧
      w4.stringCache.m_stringCache.size = 1 := by
  obtain ⟨w1, w3, cell, a1, a2, a3, a4, a5, a6, a7, a8, a9, a10, a11⟩ :=
    resolve_new (emptyWorld strings) p hlen rfl
  obtain ⟨w4, _, _, b1, b2, _⟩ := resolve_new w3 p (by rw [a10]; exact hlen) a9
  refine ⟨w1, w3, w4, _, _, cell, a1, a2, a3, a4, a5, a6, a7, a8, b1, rfl, ?_, ?_⟩
  · rw [a11]; exact Nat.succ_ne_self _
  · rw [b2, a7]; rfl


/-- Witness for `end_to_end_scenario`: the 8-bit string "hello" at address 1. -/
theorem end_to_end_scenario_witness :
    ((sampleStrings 1).characters = [104, 101, 108, 108, 111] ∧
      (sampleStrings 1).length ≠ 0) ∧
    ∃ (w1 w3 w4 : World) (h1 h2 : ObjectId) (cell : HandleCell),
      v8ExternalStringSlow (emptyWorld sampleStrings) 1 true = (w1, some h1) ∧
      w1.stringCache.m_stringCache.size = 1 ∧
      w1.refCount 1 = (sampleStrings 1).refCount + 1 ∧
      v8ExternalStringSlow w1 1 true = (w1, some h1) ∧
      w1.stringCache.m_stringCache.get 1 = ⟨some cell⟩ ∧
      fireWeakCallback w1 cell = some w3 ∧
      w3.stringCache.m_stringCache.size = 0 ∧
      w3.refCount 1 = (sampleStrings 1).refCount ∧
      v8ExternalStringSlow w3 1 true = (w4, some h2) ∧
      h2 = w3.isolate.nextObject ∧
      h2 ≠ h1 ∧
      w4.stringCache.m_stringCache.size = 1 :=
  ⟨⟨by decide, by decide⟩, end_to_end_scenario sampleStrings 1 (by decide)⟩

/-- C10 (keys are identities).  For two distinct buffers with equal non-empty
contents, resolving the first and then the second on the empty cache: the lookup
for the second misses the entry of the first, each call constructs its own engine
object and its own cell, and the mapping ends with two entries, one per buffer,
holding different handles. -/
theorem distinct_buffers_distinct_keys (strings : StringImplPtr → StringImpl)
    (s1 s2 : StringImplPtr) (hne : s1 ≠ s2)
    (heq : (strings s1).characters = (strings s2).characters)
    (hlen : (strings s1).length ≠ 0) :
    ∃ (w1 w2 : World) (o1 o2 : ObjectId),
      v8ExternalStringSlow (emptyWorld strings) s1 true = (w1, some o1) ∧
      w1.stringCache.m_stringCache.contains s2 = false ∧
      (w1.stringCache.m_stringCache.get s2).isWeak w1.isolate = false ∧
      v8ExternalStringSlow w1 s2 true = (w2, some o2) ∧
      o1 ≠ o2 ∧
      w2.isolate.nextObject = (emptyWorld strings).isolate.nextObject + 2 ∧
      w2.isolate.globalHandles.length = (emptyWorld strings).isolate.globalHandles.length + 2 ∧
      w2.stringCache.m_stringCache.size = 2 ∧
      w2.stringCache.m_stringCache.contains s1 = true ∧
      w2.stringCache.m_stringCache.contains s2 = true ∧
      w2.stringCache.m_stringCache.get s1 ≠ w2.stringCache.m_stringCache.get s2 := by
  have hlen2 : (strings s2).length ≠ 0 := by
    unfold StringImpl.length at hlen ⊢
    rw [← heq]; exact hlen
  have hne' : s2 ≠ s1 := fun e => hne e.symm
  have e1 := resolve_absent (emptyWorld strings) s1 hlen rfl
  have c2 : (createStringAndInsertIntoCache (emptyWorld strings) s1
      true).1.stringCache.m_stringCache.contains s2 = false := by
    rw [contains_eq_isSome, create_lookup]
    simp [hne', emptyWorld]
  have e2 := resolve_absent (createStringAndInsertIntoCache (emptyWorld strings) s1 true).1 s2
    (by rw [create_length]; exact hlen2) c2
  refine ⟨_, _, _, _, e1, c2, ?_, e2, ?_, ?_, ?_, ?_, ?_, ?_, ?_⟩
  · rw [get_of_not_contains _ _ c2]; rfl
  · rw [create_nextObject]; exact (Nat.succ_ne_self _).symm
  · rw [create_nextObject, create_nextObject]
  · rw [create_cells, create_cells]
  · rw [create_size _ _ c2, create_size (emptyWorld strings) s1 rfl]; rfl
  · rw [contains_eq_isSome, create_lookup, create_lookup]
    simp [hne]
  · rw [contains_eq_isSome, create_lookup]
    simp
  · simp only [HashMap.get, create_lookup, hne, if_false, if_true, Option.getD_some,
      create_cells]
    simp [emptyWorld]

/-- Witness for `distinct_buffers_distinct_keys`: the two buffers spelling "hello"
at addresses 1 and 3. -/
theorem distinct_buffers_distinct_keys_witness :
    ((1 : StringImplPtr) ≠ 3 ∧
      (sampleStrings 1).characters = (sampleStrings 3).characters ∧
      (sampleStrings 1).length ≠ 0) ∧
    ∃ (w1 w2 : World) (o1 o2 : ObjectId),
      v8ExternalStringSlow (emptyWorld sampleStrings) 1 true = (w1, some o1) ∧
      w1.stringCache.m_stringCache.contains 3 = false ∧
      (w1.stringCache.m_stringCache.get 3).isWeak w1.isolate = false ∧
      v8ExternalStringSlow w1 3 true = (w2, some o2) ∧
      o1 ≠ o2 ∧
      w2.isolate.nextObject = (emptyWorld sampleStrings).isolate.nextObject + 2 ∧
      w2.isolate.globalHandles.length
        = (emptyWorld sampleStrings).isolate.globalHandles.length + 2 ∧
      w2.stringCache.m_stringCache.size = 2 ∧
      w2.stringCache.m_stringCache.contains 1 = true ∧
      w2.stringCache.m_stringCache.contains 3 = true ∧
      w2.stringCache.m_stringCache.get 1 ≠ w2.stringCache.m_stringCache.get 3 :=
  ⟨⟨by decide, by decide, by decide⟩,
    distinct_buffers_distinct_keys sampleStrings 1 3 (by decide) (by decide) (by decide)⟩


/-! ## Lemmas for the claims on resolve, creation and removal -/

theorem size_set_of_contains (m : HashMap) (k : StringImplPtr) (v : UnsafePersistent)
    (h : m.contains k = true) : (m.set k v).size = m.size := by
  have hk : k ∈ m := by
    rw [← AList.lookup_isSome]
    exact h
  have hl : (AList.keys (AList.insert k v m)).length = (AList.keys m).length := by
    rw [AList.keys_insert, List.length_cons, List.length_erase_of_mem (AList.mem_keys.mp hk)]
    have : 0 < (AList.keys m).length := List.length_pos_of_mem (AList.mem_keys.mp hk)
    omega
  simpa [HashMap.size, HashMap.set, AList.keys, List.keys] using hl

/-- The lookup of a key is kept by a resolve of another string. -/
theorem resolve_lookup_ne (w : World) (s k : StringImplPtr) (ok : Bool) (hks : k ≠ s) :
    AList.lookup k (v8ExternalStringSlow w s ok).1.stringCache.m_stringCache =
      AList.lookup k w.stringCache.m_stringCache := by
  by_cases hlen : (w.strings s).length = 0
  · rw [v8ExternalStringSlow_empty w s ok hlen]
  · cases hweak : (w.stringCache.m_stringCache.get s).isWeak w.isolate with
    | true => rw [v8ExternalStringSlow_hit w s ok hlen hweak]
    | false =>
      rw [v8ExternalStringSlow_miss w s ok hlen hweak]
      cases ok with
      | false => rw [createStringAndInsertIntoCache_false]
      | true => rw [create_lookup]; simp [hks]

/-- A key of the mapping is still a key after a resolve. -/
theorem resolve_contains (w : World) (s k : StringImplPtr) (ok : Bool)
    (hk : w.stringCache.m_stringCache.contains k = true) :
    (v8ExternalStringSlow w s ok).1.stringCache.m_stringCache.contains k = true := by
  by_cases hks : k = s
  · subst hks
    by_cases hlen : (w.strings k).length = 0
    · rw [v8ExternalStringSlow_empty w k ok hlen]; exact hk
    · cases hweak : (w.stringCache.m_stringCache.get k).isWeak w.isolate with
      | true => rw [v8ExternalStringSlow_hit w k ok hlen hweak]; exact hk
      | false =>
        rw [v8ExternalStringSlow_miss w k ok hlen hweak]
        cases ok with
        | false => rw [createStringAndInsertIntoCache_false]; exact hk
        | true => rw [contains_eq_isSome, create_lookup]; simp
  · rw [contains_eq_isSome, resolve_lookup_ne w s k ok hks]; exact hk

/-- Effect of a direct `remove` of a key of the mapping. -/
theorem remove_of_contains (w : World) (s : StringImplPtr)
    (hs : w.stringCache.m_stringCache.contains s = true) :
    ∃ w', remove w s = some w' ∧
      w'.stringCache.m_stringCache = w.stringCache.m_stringCache.remove s ∧
      w'.stringCache.m_lastStringImpl = none ∧
      w'.stringCache.m_lastV8String = ⟨none⟩ ∧
      w'.strings = w.strings ∧
      w'.isolate = w.isolate ∧
      w'.stringResources = w.stringResources := by
  have h : remove w s = some (clearOnGC
      { w with
        stringCache :=
          { w.stringCache with m_stringCache := w.stringCache.m_stringCache.remove s } }) := by
    simp only [remove, hs, if_true]
  exact ⟨_, h, rfl, rfl, rfl, rfl, rfl, rfl⟩

/-! ## Claims on resolve, creation and removal -/

/-- C11 (resolve never removes entries).  A key of the mapping is still a key
after `v8ExternalStringSlow`, whatever string is resolved, and a key other than
the resolved string keeps its stored reference.  A key leaves the mapping in one
event only through `remove`: the event is a direct `remove` of that key or the
finalizer of a cell registered for it, which calls `remove` inside
`makeWeakCallback`. -/
theorem resolve_never_removes (w : World) (s k : StringImplPtr) (ok : Bool)
    (hk : w.stringCache.m_stringCache.contains k = true) :
    (v8ExternalStringSlow w s ok).1.stringCache.m_stringCache.contains k = true ∧
    (k ≠ s → (v8ExternalStringSlow w s ok).1.stringCache.m_stringCache.get k =
      w.stringCache.m_stringCache.get k) ∧
    (∀ (op : Op) (w' : World), step w op = some w' →
      w'.stringCache.m_stringCache.contains k = false →
      op = Op.remove k ∨
      ∃ c g, op = Op.finalize c ∧ w.isolate.handle c = some g ∧ g.weakParameter = some k ∧
        makeWeakCallback w c k = some w') := by
  refine ⟨resolve_contains w s k ok hk, ?_, ?_⟩
  · intro hks
    simp only [HashMap.get, resolve_lookup_ne w s k ok hks]
  · intro op w' hstep hgone
    cases op with
    | resolve t ok' =>
      simp only [step, Option.some.injEq] at hstep
      subst hstep
      rw [resolve_contains w t k ok' hk] at hgone
      cases hgone
    | remove t =>
      left
      simp only [step] at hstep
      obtain ⟨_, rfl⟩ := remove_eq_some hstep
      by_cases hkt : k = t
      · rw [hkt]
      · exfalso
        simp only [contains_eq_isSome, lookup_remove, hkt, if_false] at hgone
        rw [contains_eq_isSome] at hk
        rw [hk] at hgone
        cases hgone
    | finalize c =>
      right
      simp only [step] at hstep
      have hfire := hstep
      obtain ⟨g, t, hc, hg, _, rfl⟩ := fireWeakCallback_eq_some hstep
      by_cases hkt : k = t
      · subst hkt
        refine ⟨c, g, rfl, hc, hg, ?_⟩
        simpa [fireWeakCallback, hc, hg] using hfire
      · exfalso
        simp only [contains_eq_isSome, lookup_remove, hkt, if_false] at hgone
        rw [contains_eq_isSome] at hk
        rw [hk] at hgone
        cases hgone


/-- Witness for `resolve_never_removes`: the entry of address 7 across a resolve
of address 1. -/
theorem resolve_never_removes_witness :
    sampleResolved.stringCache.m_stringCache.contains 7 = true ∧
    ((v8ExternalStringSlow sampleResolved 1 true).1.stringCache.m_stringCache.contains 7
        = true ∧
      ((7 : StringImplPtr) ≠ 1 →
        (v8ExternalStringSlow sampleResolved 1 true).1.stringCache.m_stringCache.get 7 =
          sampleResolved.stringCache.m_stringCache.get 7) ∧
      (∀ (op : Op) (w' : World), step sampleResolved op = some w' →
        w'.stringCache.m_stringCache.contains 7 = false →
        op = Op.remove 7 ∨
        ∃ c g, op = Op.finalize c ∧ sampleResolved.isolate.handle c = some g ∧
          g.weakParameter = some 7 ∧ makeWeakCallback sampleResolved c 7 = some w')) :=
  ⟨by decide, resolve_never_removes sampleResolved 1 7 true (by decide)⟩

/-- C12 (failure exactly on allocation failure).  In every state
`v8ExternalStringSlow` returns an empty handle if and only if the string is
non-empty, its lookup is not a live weak reference, and the engine's construction
fails; in every other case the handle is non-empty. -/
theorem failure_iff_allocation_failure (w : World) (s : StringImplPtr) (ok : Bool) :
    (v8ExternalStringSlow w s ok).2 = none ↔
      ((w.strings s).length ≠ 0 ∧
        (w.stringCache.m_stringCache.get s).isWeak w.isolate = false ∧ ok = false) := by
  by_cases hlen : (w.strings s).length = 0
  · rw [v8ExternalStringSlow_empty w s ok hlen]
    simp [hlen]
  · cases hweak : (w.stringCache.m_stringCache.get s).isWeak w.isolate with
    | true =>
      rw [v8ExternalStringSlow_hit w s ok hlen hweak]
      obtain ⟨c, hc⟩ : ∃ c, (w.stringCache.m_stringCache.get s).value = some c := by
        cases hv : (w.stringCache.m_stringCache.get s).value with
        | none => simp [UnsafePersistent.isWeak, hv] at hweak
        | some c => exact ⟨c, rfl⟩
      cases hh : w.isolate.handle c with
      | none => simp [UnsafePersistent.isWeak, hc, hh] at hweak
      | some g => simp [UnsafePersistent.newLocal, hc, hh]
    | false =>
      rw [v8ExternalStringSlow_miss w s ok hlen hweak]
      cases ok with
      | false => rw [createStringAndInsertIntoCache_false]; simp [hlen]
      | true => rw [create_result]; simp

/-- C13 (creation-path postcondition).  With a successful construction,
`createStringAndInsertIntoCache` returns a handle on the engine's next fresh
object, the only external string constructed by the call; a new cell holds a weak
reference to that object, marked independent and registered with the string as
parameter; the mapping contains the string mapped to that cell and every other key
is looked up as before; the last-access slot holds the string and that cell; and
the string's reference count is one higher. -/
theorem creation_postcondition (w : World) (s : StringImplPtr) :
    (createStringAndInsertIntoCache w s true).2 = some w.isolate.nextObject ∧
    (createStringAndInsertIntoCache w s true).1.isolate.nextObject
      = w.isolate.nextObject + 1 ∧
    (createStringAndInsertIntoCache w s true).1.isolate.externalStringsFor s
      = w.isolate.externalStringsFor s + 1 ∧
    w.isolate.handle w.isolate.globalHandles.length = none ∧
    (createStringAndInsertIntoCache w s true).1.isolate.handle w.isolate.globalHandles.length
      = some { object := w.isolate.nextObject, independent := true, weakParameter := some s } ∧
    (createStringAndInsertIntoCache w s true).1.stringCache.m_stringCache.contains s = true ∧
    (createStringAndInsertIntoCache w s true).1.stringCache.m_stringCache.get s
      = ⟨some w.isolate.globalHandles.length⟩ ∧
    (∀ k, k ≠ s →
      AList.lookup k (createStringAndInsertIntoCache w s true).1.stringCache.m_stringCache =
        AList.lookup k w.stringCache.m_stringCache) ∧
    (createStringAndInsertIntoCache w s true).1.stringCache.m_lastStringImpl = some s ∧
    (createStringAndInsertIntoCache w s true).1.stringCache.m_lastV8String
      = ⟨some w.isolate.globalHandles.length⟩ ∧
    (createStringAndInsertIntoCache w s true).1.refCount s = w.refCount s + 1 := by
  refine ⟨create_result w s, create_nextObject w s, ?_, handle_length_none _, ?_, ?_, ?_, ?_,
    (create_slot w s).1, (create_slot w s).2, ?_⟩
  · rw [create_externalStringsFor]; simp
  · rw [create_handle]; simp
  · rw [contains_eq_isSome, create_lookup]; simp
  · simp [HashMap.get, create_lookup]
  · intro k hk
    rw [create_lookup]; simp [hk]
  · rw [create_refCount]; simp


/-- C14 (miss or stale entry falls through to creation).  For a non-empty string
whose lookup is not a live weak reference, `v8ExternalStringSlow` returns what
`createStringAndInsertIntoCache` returns and leaves the state it leaves, and the
event completes without an assertion.  When the key is present (a stale entry)
the size of the mapping is unchanged, and with a successful construction the
entry is overwritten with the new cell, a live weak reference. -/
theorem miss_falls_through (w : World) (s : StringImplPtr) (ok : Bool)
    (hlen : (w.strings s).length ≠ 0)
    (hmiss : (w.stringCache.m_stringCache.get s).isWeak w.isolate = false) :
    v8ExternalStringSlow w s ok = createStringAndInsertIntoCache w s ok ∧
    (step w (Op.resolve s ok)).isSome = true ∧
    (w.stringCache.m_stringCache.contains s = true →
      (v8ExternalStringSlow w s ok).1.stringCache.m_stringCache.size =
        w.stringCache.m_stringCache.size ∧
      (ok = true →
        (v8ExternalStringSlow w s ok).1.stringCache.m_stringCache.get s
          = ⟨some w.isolate.globalHandles.length⟩ ∧
        ((v8ExternalStringSlow w s ok).1.stringCache.m_stringCache.get s).isWeak
          (v8ExternalStringSlow w s ok).1.isolate = true)) := by
  have e := v8ExternalStringSlow_miss w s ok hlen hmiss
  refine ⟨e, rfl, ?_⟩
  intro hs
  rw [e]
  cases ok with
  | false =>
    rw [createStringAndInsertIntoCache_false]
    exact ⟨rfl, fun h => by cases h⟩
  | true =>
    refine ⟨?_, fun _ => ⟨?_, ?_⟩⟩
    · rw [createStringAndInsertIntoCache_true]
      exact size_set_of_contains _ _ _ hs
    · simp [HashMap.get, create_lookup]
    · simp [HashMap.get, create_lookup, UnsafePersistent.isWeak, create_handle]


/-- Witness for `miss_falls_through`: the stale entry of address 7 in
`worldWithStaleEntry`. -/
theorem miss_falls_through_witness :
    (((worldWithStaleEntry.strings 7).length ≠ 0 ∧
        (worldWithStaleEntry.stringCache.m_stringCache.get 7).isWeak
          worldWithStaleEntry.isolate = false) ∧
      worldWithStaleEntry.stringCache.m_stringCache.contains 7 = true) ∧
    (v8ExternalStringSlow worldWithStaleEntry 7 true
        = createStringAndInsertIntoCache worldWithStaleEntry 7 true ∧
      (step worldWithStaleEntry (Op.resolve 7 true)).isSome = true ∧
      (worldWithStaleEntry.stringCache.m_stringCache.contains 7 = true →
        (v8ExternalStringSlow worldWithStaleEntry 7 true).1.stringCache.m_stringCache.size =
          worldWithStaleEntry.stringCache.m_stringCache.size ∧
        (true = true →
          (v8ExternalStringSlow worldWithStaleEntry 7 true).1.stringCache.m_stringCache.get 7
            = ⟨some worldWithStaleEntry.isolate.globalHandles.length⟩ ∧
          ((v8ExternalStringSlow worldWithStaleEntry 7
              true).1.stringCache.m_stringCache.get 7).isWeak
            (v8ExternalStringSlow worldWithStaleEntry 7 true).1.isolate = true))) :=
  ⟨⟨⟨by decide, by decide⟩, by decide⟩,
    miss_falls_through worldWithStaleEntry 7 true (by decide) (by decide)⟩

/-- C15 (the fast path is a pure optimisation).  In a state satisfying the
last-access-slot invariant, for a non-empty string recorded in the slot with a
live reference, `v8ExternalString` returns the slot's handle and leaves the state
unchanged, and `v8ExternalStringSlow` returns the same handle and the same
state. -/
theorem fast_path_is_optimisation (w : World) (s : StringImplPtr) (ok : Bool)
    (hlen : (w.strings s).length ≠ 0)
    (hinv : (w.stringCache.m_lastStringImpl = none ∧ w.stringCache.m_lastV8String = ⟨none⟩) ∨
      ∃ k, w.stringCache.m_lastStringImpl = some k ∧
        w.stringCache.m_stringCache.contains k = true ∧
        w.stringCache.m_stringCache.get k = w.stringCache.m_lastV8String ∧
        w.stringCache.m_lastV8String.isWeak w.isolate = true)
    (hkey : w.stringCache.m_lastStringImpl = some s)
    (hlive : w.stringCache.m_lastV8String.isWeak w.isolate = true) :
    v8ExternalString w s ok = (w, w.stringCache.m_lastV8String.newLocal w.isolate) ∧
    v8ExternalStringSlow w s ok = v8ExternalString w s ok := by
  have hfast : v8ExternalString w s ok =
      (w, w.stringCache.m_lastV8String.newLocal w.isolate) := by
    unfold v8ExternalString
    simp [hkey, hlive]
  refine ⟨hfast, ?_⟩
  rcases hinv with ⟨h, _⟩ | ⟨k, hk, _, hget, _⟩
  · rw [h] at hkey; cases hkey
  · rw [hk] at hkey
    have hks : k = s := Option.some.inj hkey
    subst hks
    rw [hfast, v8ExternalStringSlow_hit_same w k ok hlen (by rw [hget]; exact hlive) hk
      hget.symm, hget]


/-- Witness for `fast_path_is_optimisation`: address 7 in `sampleResolved`, whose
slot records it. -/
theorem fast_path_is_optimisation_witness :
    ((sampleResolved.strings 7).length ≠ 0 ∧
      sampleResolved.stringCache.m_lastStringImpl = some 7 ∧
      sampleResolved.stringCache.m_stringCache.contains 7 = true ∧
      sampleResolved.stringCache.m_stringCache.get 7
        = sampleResolved.stringCache.m_lastV8String ∧
      sampleResolved.stringCache.m_lastV8String.isWeak sampleResolved.isolate = true) ∧
    (v8ExternalString sampleResolved 7 false =
        (sampleResolved,
          sampleResolved.stringCache.m_lastV8String.newLocal sampleResolved.isolate) ∧
      v8ExternalStringSlow sampleResolved 7 false = v8ExternalString sampleResolved 7 false) :=
  ⟨⟨by decide, by decide, by decide, by decide, by decide⟩,
    fast_path_is_optimisation sampleResolved 7 false (by decide)
      (Or.inr ⟨7, by decide, by decide, by decide, by decide⟩) (by decide) (by decide)⟩

/-- C17 (the assertion in `remove` holds for the finalizer).  In every state
reachable from the empty cache by resolve calls and finalizer invocations, for
every live weak cell, with the string it was registered for: the mapping contains
that string, so the `ASSERT` of `remove` holds, and the finalizer, which is
`makeWeakCallback` on that cell and string, runs to completion. -/
theorem finalizer_assertion_holds (strings : StringImplPtr → StringImpl) (w : World)
    (c : HandleCell) (g : GlobalHandle) (s : StringImplPtr)
    (hreach : ReachableGC strings w)
    (hc : w.isolate.handle c = some g) (hg : g.weakParameter = some s) :
    w.stringCache.m_stringCache.contains s = true ∧
    (remove w s).isSome = true ∧
    fireWeakCallback w c = makeWeakCallback w c s ∧
    (makeWeakCallback w c s).isSome = true := by
  have hl := (balanced_of_reachableGC hreach).cellsMapped c g s hc hg
  have hs : w.stringCache.m_stringCache.contains s = true := by
    simp [contains_eq_isSome, hl]
  refine ⟨hs, by simp [remove, hs], by simp [fireWeakCallback, hc, hg], ?_⟩
  simp [makeWeakCallback, remove, hs]


/-- Witness for `finalizer_assertion_holds`: cell 0 of `sampleResolved`,
registered for address 7. -/
theorem finalizer_assertion_holds_witness :
    (ReachableGC sampleStrings sampleResolved ∧
      sampleResolved.isolate.handle 0 =
        some { object := 1, independent := true, weakParameter := some 7 }) ∧
    (sampleResolved.stringCache.m_stringCache.contains 7 = true ∧
      (remove sampleResolved 7).isSome = true ∧
      fireWeakCallback sampleResolved 0 = makeWeakCallback sampleResolved 0 7 ∧
      (makeWeakCallback sampleResolved 0 7).isSome = true) :=
  ⟨⟨⟨[Op.resolve 7 true], by decide, rfl⟩, by decide⟩,
    finalizer_assertion_holds sampleStrings sampleResolved 0
      { object := 1, independent := true, weakParameter := some 7 } 7
      ⟨[Op.resolve 7 true], by decide, rfl⟩ (by decide) rfl⟩

/-- C18 (explicit removal does not release ownership).  A direct `remove` of a
key of the mapping succeeds, deletes that key, looks up every other key as
before, clears the last-access slot, and leaves the native heap (hence every
reference count), the engine (hence the weak cell) and the string resources as
they are.  And on the empty cache, resolve, `remove`, resolve of a non-empty
string leaves its count two above the initial one with one entry in the
mapping. -/
theorem explicit_removal_keeps_ownership (w : World) (s : StringImplPtr)
    (hs : w.stringCache.m_stringCache.contains s = true) :
    (∃ w', remove w s = some w' ∧
      w'.stringCache.m_stringCache.contains s = false ∧
      (∀ k, k ≠ s → AList.lookup k w'.stringCache.m_stringCache =
        AList.lookup k w.stringCache.m_stringCache) ∧
      w'.stringCache.m_lastStringImpl = none ∧
      w'.stringCache.m_lastV8String = ⟨none⟩ ∧
      w'.strings = w.strings ∧
      w'.isolate = w.isolate ∧
      w'.stringResources = w.stringResources) ∧
    (∀ (strings : StringImplPtr → StringImpl) (p : StringImplPtr), (strings p).length ≠ 0 →
      ∃ w3, run (emptyWorld strings) [Op.resolve p true, Op.remove p, Op.resolve p true]
          = some w3 ∧
        w3.refCount p = (strings p).refCount + 2 ∧
        w3.stringCache.m_stringCache.contains p = true ∧
        w3.stringCache.m_stringCache.size = 1) := by
  constructor
  · obtain ⟨w', h1, h2, h3, h4, h5, h6, h7⟩ := remove_of_contains w s hs
    refine ⟨w', h1, ?_, ?_, h3, h4, h5, h6, h7⟩
    · rw [h2]; simp [contains_eq_isSome, lookup_remove]
    · intro k hk
      rw [h2]; simp [lookup_remove, hk]
  · intro strings p hlen
    have e1 := resolve_absent (emptyWorld strings) p hlen rfl
    have hc1 : (createStringAndInsertIntoCache (emptyWorld strings) p
        true).1.stringCache.m_stringCache.contains p = true := by
      rw [contains_eq_isSome, create_lookup]; simp
    obtain ⟨w2, e2, hmap, _, _, hstr, _, _⟩ := remove_of_contains _ p hc1
    have habs : w2.stringCache.m_stringCache.contains p = false := by
      rw [hmap]; simp [contains_eq_isSome, lookup_remove]
    have hlen2 : (w2.strings p).length ≠ 0 := by
      rw [hstr, create_length]; exact hlen
    have e3 := resolve_absent w2 p hlen2 habs
    refine ⟨(createStringAndInsertIntoCache w2 p true).1,
      by simp only [run, step, e1, e2, e3], ?_, ?_, ?_⟩
    · rw [create_refCount]
      have h1 := create_refCount (emptyWorld strings) p p
      simp only [if_true] at h1 ⊢
      have h2 : w2.refCount p =
          (createStringAndInsertIntoCache (emptyWorld strings) p true).1.refCount p := by
        simp only [World.refCount, hstr]
      rw [h2, h1]
      rfl
    · rw [contains_eq_isSome, create_lookup]; simp
    · rw [create_size _ _ habs, hmap]
      have h1 := size_remove_of_contains _ p hc1
      have h2 := create_size (emptyWorld strings) p rfl
      have h3 : (emptyWorld strings).stringCache.m_stringCache.size = 0 := rfl
      omega

/-- Witness for `explicit_removal_keeps_ownership`: address 7 in `sampleResolved`. -/
theorem explicit_removal_keeps_ownership_witness :
    sampleResolved.stringCache.m_stringCache.contains 7 = true ∧
    (∃ w', remove sampleResolved 7 = some w' ∧
      w'.stringCache.m_stringCache.contains 7 = false ∧
      (∀ k, k ≠ 7 → AList.lookup k w'.stringCache.m_stringCache =
        AList.lookup k sampleResolved.stringCache.m_stringCache) ∧
      w'.stringCache.m_lastStringImpl = none ∧
      w'.stringCache.m_lastV8String = ⟨none⟩ ∧
      w'.strings = sampleResolved.strings ∧
      w'.isolate = sampleResolved.isolate ∧
      w'.stringResources = sampleResolved.stringResources) ∧
    (∃ w3, run (emptyWorld sampleStrings) [Op.resolve 7 true, Op.remove 7, Op.resolve 7 true]
        = some w3 ∧
      w3.refCount 7 = (sampleStrings 7).refCount + 2 ∧
      w3.stringCache.m_stringCache.contains 7 = true ∧
      w3.stringCache.m_stringCache.size = 1) :=
  ⟨by decide, (explicit_removal_keeps_ownership sampleResolved 7 (by decide)).1,
    (explicit_removal_keeps_ownership sampleResolved 7 (by decide)).2 sampleStrings 7
      (by decide)⟩

end WebCore

namespace WebKit

/-! ## Lemmas for the delegate -/

theorem takeWhile_append_of_exists {α : Type} (p : α → Bool) (l m : List α)
    (h : ∃ a ∈ l, p a = false) : (l ++ m).takeWhile p = l.takeWhile p := by
  induction l with
  | nil => obtain ⟨a, ha, _⟩ := h; cases ha
  | cons x xs ih =>
    cases hx : p x with
    | false => simp [List.takeWhile_cons, hx]
    | true =>
      obtain ⟨a, ha, hpa⟩ := h
      have hax : a ∈ xs := by
        rcases List.mem_cons.mp ha with e | e
        · rw [e, hx] at hpa; cases hpa
        · exact e
      simp [List.takeWhile_cons, hx, ih ⟨a, hax, hpa⟩]

theorem reverseFind_of_not_mem (s : WTFString) (c : Char) (h : c ∉ s) :
    reverseFind s c = -1 := by
  induction s with
  | nil => rfl
  | cons x xs ih =>
    have hx : ¬ x = c := fun e => h (by rw [e]; exact List.mem_cons_self _ _)
    have hxs : c ∉ xs := fun e => h (List.mem_cons_of_mem _ e)
    simp [reverseFind, ih hxs, hx]

theorem reverseFind_of_mem (s : WTFString) (c : Char) (h : c ∈ s) :
    0 ≤ reverseFind s c ∧
    substring s (reverseFind s c + 1).toNat =
      (s.reverse.takeWhile (fun a => a ≠ c)).reverse := by
  induction s with
  | nil => cases h
  | cons x xs ih =>
    by_cases hxs : c ∈ xs
    · obtain ⟨h0, hsub⟩ := ih hxs
      have hr : reverseFind (x :: xs) c = reverseFind xs c + 1 := by
        simp [reverseFind, h0]
      refine ⟨by rw [hr]; omega, ?_⟩
      have htw : ((x :: xs).reverse.takeWhile (fun a => decide (a ≠ c))) =
          (xs.reverse.takeWhile (fun a => decide (a ≠ c))) := by
        rw [List.reverse_cons]
        exact takeWhile_append_of_exists _ _ _ ⟨c, List.mem_reverse.mpr hxs, by simp⟩
      rw [htw, ← hsub, hr]
      have hn : (reverseFind xs c + 1 + 1).toNat = (reverseFind xs c + 1).toNat + 1 := by omega
      simp [substring, hn]
    · have hxc : x = c := by
        rcases List.mem_cons.mp h with e | e
        · exact e.symm
        · exact absurd e hxs
      have hr : reverseFind (x :: xs) c = 0 := by
        simp [reverseFind, reverseFind_of_not_mem xs c hxs, hxc]
      refine ⟨by rw [hr], ?_⟩
      rw [hr, List.reverse_cons, List.takeWhile_append_of_pos]
      · simp [substring, hxc, List.takeWhile_cons]
      · intro a ha
        have : a ≠ c := fun e => hxs (by rw [← e]; exact List.mem_reverse.mp ha)
        simp [this]

/-- The classification step agrees with the table on a non-empty type. -/
theorem classifyMIMEType_eq_table (env : Environment) (self : FrameLoaderClientImpl)
    (webFrame : WebFrameImpl) (frame : Frame) (page : Page)
    (shouldPreferPlugInsForImages : Bool)
    (hw : self.m_webFrame = some webFrame) (hf : webFrame.frame = some frame)
    (hp : frame.page = some page) (m : WTFString) (hm : m ≠ []) :
    classifyMIMEType env self m shouldPreferPlugInsForImages =
      some (objectContentTypeTable env page.pluginData m shouldPreferPlugInsForImages) := by
  cases hd : page.pluginData with
  | none =>
    simp only [classifyMIMEType, objectContentTypeTable, hw, hf, hp, hd, hm, if_false]
    cases env.isSupportedImageMIMEType m <;> cases env.isSupportedNonImageMIMEType m <;>
      cases shouldPreferPlugInsForImages <;> simp
  | some data =>
    simp only [classifyMIMEType, objectContentTypeTable, hw, hf, hp, hd, hm, if_false]
    by_cases h1 : env.isSupportedImageMIMEType m = true <;>
      by_cases h2 : data.supportsMimeType m = true <;>
      by_cases h3 : env.isSupportedNonImageMIMEType m = true <;>
      by_cases h4 : shouldPreferPlugInsForImages = true <;>
      simp [h1, h2, h3, h4]

/-- The type the source guesses from the file name is the one C19 describes. -/
theorem guessed_eq_effective (env : Environment) (url : KURL) :
    (if reverseFind url.lastPathComponent '.' ≥ 0 then
        if (env.getMIMETypeForExtension (substring url.lastPathComponent
            (reverseFind url.lastPathComponent '.' + 1).toNat)).isEmpty then
          env.getPluginMimeTypeFromExtension (substring url.lastPathComponent
            (reverseFind url.lastPathComponent '.' + 1).toNat)
        else env.getMIMETypeForExtension (substring url.lastPathComponent
            (reverseFind url.lastPathComponent '.' + 1).toNat)
      else []) = effectiveMIMEType env url [] := by
  unfold effectiveMIMEType textAfterLastDot
  by_cases hdot : '.' ∈ url.lastPathComponent
  · obtain ⟨h0, hsub⟩ := reverseFind_of_mem url.lastPathComponent '.' hdot
    rw [hsub]
    simp only [ge_iff_le, h0, if_true, hdot, ne_eq, not_true_eq_false, if_false]
    by_cases hreg : env.getMIMETypeForExtension
        (url.lastPathComponent.reverse.takeWhile (fun a => decide (a ≠ '.'))).reverse = []
    · simp [hreg]
    · have hne : (env.getMIMETypeForExtension
          (url.lastPathComponent.reverse.takeWhile
            (fun a => decide (a ≠ '.'))).reverse).isEmpty = false := by
        simpa [List.isEmpty_iff] using hreg
      simp [hne, hreg]
  · have hr := reverseFind_of_not_mem url.lastPathComponent '.' hdot
    simp [hr, hdot]

/-! ## Claims on the delegate -/

/-- C16, evaluated on a frame whose `client()` is null.  The six methods
`dispatchDidChangeLocationWithinPage`, `dispatchUnableToImplementPolicy`,
`userAgent`, `doNotTrackValue`, `dispatchWillOpenSocketStream` and
`dispatchWillStartUsingPeerConnectionHandler` dereference the null client, while
the guarded methods `dispatchWillClose`, `didChangeName` and `allowWebGL` make no
call and return their default. -/
theorem delegate_methods_null_client (env : Environment) (viewImpl : Option WebViewImpl)
    (frame : Option Frame) (error : ResourceError) (url : KURL) (handle handler : Nat)
    (name : WTFString) (enabledPerSettings : Bool) :
    dispatchDidChangeLocationWithinPage
        ⟨some { client := none, viewImpl := viewImpl, frame := frame }⟩ = none ∧
    dispatchUnableToImplementPolicy
        ⟨some { client := none, viewImpl := viewImpl, frame := frame }⟩ error = none ∧
    userAgent env ⟨some { client := none, viewImpl := viewImpl, frame := frame }⟩ url = none ∧
    doNotTrackValue ⟨some { client := none, viewImpl := viewImpl, frame := frame }⟩ = none ∧
    dispatchWillOpenSocketStream
        ⟨some { client := none, viewImpl := viewImpl, frame := frame }⟩ handle = none ∧
    dispatchWillStartUsingPeerConnectionHandler
        ⟨some { client := none, viewImpl := viewImpl, frame := frame }⟩ handler = none ∧
    dispatchWillClose ⟨some { client := none, viewImpl := viewImpl, frame := frame }⟩
      = some [] ∧
    didChangeName ⟨some { client := none, viewImpl := viewImpl, frame := frame }⟩ name
      = some [] ∧
    allowWebGL ⟨some { client := none, viewImpl := viewImpl, frame := frame }⟩
      enabledPerSettings = some enabledPerSettings :=
  ⟨rfl, rfl, rfl, rfl, rfl, rfl, rfl, rfl, rfl⟩


/-- C19 (decision table of `objectContentType`).  For a delegate whose frame is
attached to a page, `objectContentType` returns the entry of the table of C19 for
the type `m`: the explicit MIME type if non-empty, otherwise the type guessed
from the text after the last `.` of the last path component. -/
theorem objectContentType_decision_table (env : Environment) (self : FrameLoaderClientImpl)
    (webFrame : WebFrameImpl) (frame : Frame) (page : Page) (url : KURL)
    (explicitMimeType : WTFString) (shouldPreferPlugInsForImages : Bool)
    (hw : self.m_webFrame = some webFrame) (hf : webFrame.frame = some frame)
    (hp : frame.page = some page) :
    objectContentType env self url explicitMimeType shouldPreferPlugInsForImages =
      some (objectContentTypeTable env page.pluginData
        (effectiveMIMEType env url explicitMimeType) shouldPreferPlugInsForImages) := by
  by_cases he : explicitMimeType = []
  · subst he
    simp only [objectContentType, List.isEmpty_nil, if_true]
    rw [guessed_eq_effective env url]
    by_cases hm : effectiveMIMEType env url [] = []
    · simp [hm, objectContentTypeTable]
    · have hne : (effectiveMIMEType env url []).isEmpty = false := by
        simpa [List.isEmpty_iff] using hm
      simp only [hne, Bool.false_eq_true, if_false]
      exact classifyMIMEType_eq_table env self webFrame frame page _ hw hf hp _ hm
  · have hne : explicitMimeType.isEmpty = false := by simpa [List.isEmpty_iff] using he
    have heff : effectiveMIMEType env url explicitMimeType = explicitMimeType := by
      simp [effectiveMIMEType, he]
    simp only [objectContentType, hne, Bool.false_eq_true, if_false, heff]
    exact classifyMIMEType_eq_table env self webFrame frame page _ hw hf hp _ he


/-- Witness for `objectContentType_decision_table`: the URL ending in `a.b.swf`
without explicit type, on a page whose plugins support the guessed type. -/
theorem objectContentType_decision_table_witness :
    (delegateWithoutClient.m_webFrame = some frameWithoutClient ∧
      frameWithoutClient.frame = some { page := some samplePage } ∧
      (some samplePage : Option Page) = some samplePage) ∧
    objectContentType sampleEnvironment delegateWithoutClient samplePluginURL [] false =
      some (objectContentTypeTable sampleEnvironment samplePage.pluginData
        (effectiveMIMEType sampleEnvironment samplePluginURL []) false) :=
  ⟨⟨rfl, rfl, rfl⟩,
    objectContentType_decision_table sampleEnvironment delegateWithoutClient
      frameWithoutClient { page := some samplePage } samplePage samplePluginURL [] false
      rfl rfl rfl⟩

/-- C20 (the history-item predicates agree).  `shouldStopLoadingForHistoryItem`
returns true exactly when the URL does not use the back/forward pseudo-scheme.
`shouldGoToHistoryItem` returns true, without any call, for such a URL; for a URL
of the pseudo-scheme it returns false: past `ASSERT_NOT_REACHED()` and without
any call when the last path component does not parse, and, on a frame with a
view, with the single call `navigateBackForwardSoon(offset)` when it parses and
the view's client is non-null, and no call when that client is null. -/
theorem history_item_predicates (env : Environment) (self : FrameLoaderClientImpl)
    (item : HistoryItem) :
    (shouldStopLoadingForHistoryItem env item = true ↔
      item.url.protocolIs env.backForwardNavigationScheme = false) ∧
    (item.url.protocolIs env.backForwardNavigationScheme = false →
      shouldGoToHistoryItem env self item =
        some { value := true, calls := [], assertNotReached := false }) ∧
    (item.url.protocolIs env.backForwardNavigationScheme = true →
      env.toIntStrict item.url.lastPathComponent = none →
      shouldGoToHistoryItem env self item =
        some { value := false, calls := [], assertNotReached := true }) ∧
    (∀ (offset : Int) (webFrame : WebFrameImpl) (webview : WebViewImpl),
      item.url.protocolIs env.backForwardNavigationScheme = true →
      env.toIntStrict item.url.lastPathComponent = some offset →
      self.m_webFrame = some webFrame → webFrame.viewImpl = some webview →
      shouldGoToHistoryItem env self item =
        some { value := false
               calls := if webview.client.isSome then
                 [ClientCall.navigateBackForwardSoon offset] else []
               assertNotReached := false }) := by
  refine ⟨by simp [shouldStopLoadingForHistoryItem], ?_, ?_, ?_⟩
  · intro hs
    simp [shouldGoToHistoryItem, hs]
  · intro hs hp
    simp [shouldGoToHistoryItem, hs, hp]
  · intro offset webFrame webview hs hp hw hv
    cases hc : webview.client with
    | none => simp [shouldGoToHistoryItem, hs, hp, hw, hv, hc]
    | some client => simp [shouldGoToHistoryItem, hs, hp, hw, hv, hc]

/-- Witness for `history_item_predicates`: the back/forward URL with last path
component `-1` on a frame whose view has a client. -/
theorem history_item_predicates_witness :
    (sampleBackForwardURL.protocolIs sampleEnvironment.backForwardNavigationScheme = true ∧
      sampleEnvironment.toIntStrict sampleBackForwardURL.lastPathComponent = some (-1) ∧
      delegateWithoutClient.m_webFrame = some frameWithoutClient ∧
      frameWithoutClient.viewImpl = some { client := some WebViewClient.mk }) ∧
    shouldGoToHistoryItem sampleEnvironment delegateWithoutClient
        { url := sampleBackForwardURL } =
      some { value := false
             calls := if (WebViewImpl.mk (some WebViewClient.mk)).client.isSome then
               [ClientCall.navigateBackForwardSoon (-1)] else []
             assertNotReached := false } :=
  ⟨⟨rfl, rfl, rfl, rfl⟩,
    (history_item_predicates sampleEnvironment delegateWithoutClient
      { url := sampleBackForwardURL }).2.2.2 (-1) frameWithoutClient
      { client := some WebViewClient.mk } rfl rfl rfl rfl⟩

end WebKit
